import Mathlib

/-!
Shallow embedding of the declarative UI rendering engine (reconciler,
hook/state store, render scheduler) of this repository, together with
theorems settling the specification claims.

Sources embedded:
- `src/packages/react/src/core/elements.ts` (`createChildPath`, `normalizeNode`)
- `src/unnamed/part_000` (the host-tree adapter: `setDomProps`, `updateDomProps`,
  `getDomNodes`, `getFirstDom`, `getFirstDomFromChildren`, `insertInstance`,
  `removeInstance`)
- `src/packages/react/src/core/reconciler.ts` (`reconcile` and its mount/update
  helpers)
- the hook store (`useState`, `useEffect`, `cleanupUnusedHooks`)
- `src/packages/react/src/core/render.ts` (`render`, `flushEffects`)

JavaScript runtime values are modelled by the `Value` inductive; `Object.is`
and `===` on such values become structural equality (reference identity of
mutable objects is modelled by a numeric id).  The mutable DOM is modelled by
an explicit `DomState`; every issued DOM operation is also recorded in an
event trace so that claims about "render-target mutations" can be stated.
The mutable instance tree of the source is rebuilt functionally; identity of
previous child instances (the JavaScript `Set<Instance>`/`Map` membership) is
modelled by their position in the previous-children array, which is faithful
because reconciliation only ever puts a given instance object at one position.
`console.log` calls of the source are pure reads and are not modelled.
-/

/-- JavaScript values as far as the engine inspects them.  `obj id` stands for
a reference to a mutable object with identity `id`. -/
inductive Value where
  | i (n : Int)
  | s (v : String)
  | b (v : Bool)
  | nullV
  | undef
  | obj (id : Nat)
deriving DecidableEq, Repr

/-- Object.is, the sole equality check used by the state setter.  On the
modelled values it coincides with structural equality. -/
def objectIs (a b : Value) : Bool := a = b

/-- The `type` field of a node: the TEXT_ELEMENT marker, the Fragment marker,
a host tag string, or a component function (identified by an id, with its
JavaScript `name` carried for `createChildPath`). -/
inductive NType where
  | textElem
  | fragment
  | host (tag : String)
  | component (id : Nat) (name : String)
deriving DecidableEq, Repr

/-- Property values occurring in `props` besides `children`/`nodeValue`:
primitives, event handlers and the `style` object (carrying a reference id so
that `===` between two style objects is reference identity). -/
inductive PropVal where
  | s (v : String)
  | i (n : Int)
  | b (v : Bool)
  | nullV
  | undef
  | fn (id : Nat)
  | style (id : Nat) (entries : List (String × String))
  | refObj (id : Nat)
deriving DecidableEq, Repr

/-- JavaScript `===` on property values (structural on primitives, reference
identity via ids on objects and functions). -/
def pvalEq (a b : PropVal) : Bool := a = b

/-- JavaScript truthiness of a property value. -/
def pvalTruthy : PropVal → Bool
  | .s v => v ≠ ""
  | .i n => n ≠ 0
  | .b v => v
  | .nullV => false
  | .undef => false
  | .fn _ => true
  | .style _ _ => true
  | .refObj _ => true

/-- JavaScript `value != null` (loose: false exactly for null and undefined). -/
def pvalNotNullish : PropVal → Bool
  | .nullV => false
  | .undef => false
  | _ => true

/-- JavaScript `String(value)` on the modelled property values. -/
def pvalString : PropVal → String
  | .s v => v
  | .i n => toString n
  | .b v => if v then "true" else "false"
  | .nullV => "null"
  | .undef => "undefined"
  | .fn _ => "function"
  | .style _ _ => "[object Object]"
  | .refObj _ => "[object Object]"

/-- JavaScript `typeof value === "object" && value !== null` on property
values. -/
def pvalIsObject : PropVal → Bool
  | .style _ _ => true
  | .refObj _ => true
  | _ => false

/-- JavaScript `typeof value === "boolean"`. -/
def pvalIsBool : PropVal → Bool
  | .b _ => true
  | _ => false

/-- Canonical node (`VNode` of the source).  `props.children` and
`props.nodeValue` are modelled as the dedicated fields `children` and
`nodeValue`; the remaining props entries are the ordered association list
`attrs` (which therefore never contains a `children` key).  For component
nodes the source leaves `props.children` undefined when empty; this is
recovered by `childrenIsEmptyArray` below. -/
inductive VNode where
  | mk (type : NType) (key : Option String) (attrs : List (String × PropVal))
       (children : List VNode) (nodeValue : String)
deriving Repr

def VNode.type : VNode → NType
  | .mk t _ _ _ _ => t

def VNode.key : VNode → Option String
  | .mk _ k _ _ _ => k

def VNode.attrs : VNode → List (String × PropVal)
  | .mk _ _ a _ _ => a

def VNode.children : VNode → List VNode
  | .mk _ _ _ c _ => c

def VNode.nodeValue : VNode → String
  | .mk _ _ _ _ v => v

/-- The four instance kinds (`NodeTypes` of the source's constants). -/
inductive IKind where
  | host
  | text
  | fragment
  | component
deriving DecidableEq, Repr

/-- Instance: the durable record of a mounted subtree.  `dom` is the id of
the owned (or cached first) DOM node. -/
inductive Inst where
  | mk (kind : IKind) (dom : Option Nat) (node : VNode)
       (children : List (Option Inst)) (key : Option String) (path : String)
deriving Repr

def Inst.kind : Inst → IKind
  | .mk k _ _ _ _ _ => k

def Inst.dom : Inst → Option Nat
  | .mk _ d _ _ _ _ => d

def Inst.node : Inst → VNode
  | .mk _ _ n _ _ _ => n

def Inst.children : Inst → List (Option Inst)
  | .mk _ _ _ c _ _ => c

def Inst.key : Inst → Option String
  | .mk _ _ _ _ k _ => k

def Inst.path : Inst → String
  | .mk _ _ _ _ _ p => p

/-- Functional update of the `path` field (the source mutates it in place). -/
def Inst.withPath (p : String) : Inst → Inst
  | .mk k d n c key _ => .mk k d n c key p

mutual

/-- Structural equality test on nodes (used only to state concrete results
about computed instance trees). -/
def vnodeBeq (a b : VNode) : Bool :=
  match a, b with
  | .mk t k at_ cs nv, .mk t' k' at_' cs' nv' =>
      t == t' && k == k' && at_ == at_' && vnodeListBeq cs cs' && nv == nv'
  termination_by structural a

/-- Child-list part of `vnodeBeq`. -/
def vnodeListBeq (l l' : List VNode) : Bool :=
  match l, l' with
  | [], [] => true
  | a :: r, b :: r' => vnodeBeq a b && vnodeListBeq r r'
  | _, _ => false
  termination_by structural l

end

mutual

/-- Structural equality test on instances. -/
def instBeq (a b : Inst) : Bool :=
  match a, b with
  | .mk k d n cs key p, .mk k' d' n' cs' key' p' =>
      k == k' && d == d' && vnodeBeq n n' && instListBeq cs cs' && key == key' && p == p'
  termination_by structural a

/-- Child-list part of `instBeq`. -/
def instListBeq (l l' : List (Option Inst)) : Bool :=
  match l, l' with
  | [], [] => true
  | none :: r, none :: r' => instListBeq r r'
  | some a :: r, some b :: r' => instBeq a b && instListBeq r r'
  | _, _ => false
  termination_by structural l

end

/-- Association-list lookup (JavaScript `Map.get`). -/
def mapLookup {κ α : Type} [DecidableEq κ] (m : List (κ × α)) (k : κ) : Option α :=
  match m with
  | [] => none
  | (k', v) :: rest => if k' = k then some v else mapLookup rest k

/-- Association-list update (JavaScript `Map.set`: replaces in place, keeping
the original insertion position of the key, else appends). -/
def mapSet {κ α : Type} [DecidableEq κ] (m : List (κ × α)) (k : κ) (v : α) : List (κ × α) :=
  match m with
  | [] => [(k, v)]
  | (k', v') :: rest => if k' = k then (k, v) :: rest else (k', v') :: mapSet rest k v

/-- Association-list deletion (JavaScript `Map.delete`). -/
def mapDelete {κ α : Type} [DecidableEq κ] (m : List (κ × α)) (k : κ) : List (κ × α) :=
  match m with
  | [] => []
  | (k', v') :: rest => if k' = k then mapDelete rest k else (k', v') :: mapDelete rest k

/-- JavaScript array element assignment `arr[i] = v`; out-of-range assignment
extends the array, filling holes with `pad`. -/
def listSet {α : Type} (l : List α) (i : Nat) (v : α) (pad : α) : List α :=
  match l, i with
  | [], 0 => [v]
  | [], n + 1 => pad :: listSet [] n v pad
  | _ :: rest, 0 => v :: rest
  | x :: rest, n + 1 => x :: listSet rest n v pad

/-- Kind of a live DOM node. -/
inductive DKind where
  | elem (tag : String)
  | textNode
deriving DecidableEq, Repr

/-- Events of the render-target operation trace.  The `cleanupRun` and
`effectRun` events record hook-effect activity during garbage collection and
effect flush. -/
inductive Ev where
  | createElement (id : Nat) (tag : String)
  | createText (id : Nat) (value : String)
  | insertBefore (parent child anchor : Nat)
  | appendChild (parent child : Nat)
  | removeChild (parent child : Nat)
  | setText (id : Nat) (value : String)
  | setAttr (id : Nat) (name value : String)
  | removeAttr (id : Nat) (name : String)
  | setProp (id : Nat) (name : String)
  | delProp (id : Nat) (name : String)
  | setStyleKey (id : Nat) (name value : String)
  | clearStyle (id : Nat)
  | addListener (id : Nat) (event : String)
  | removeListener (id : Nat) (event : String)
  | cleanupRun (cleanupId : Nat)
  | effectRun (effectId : Nat)
deriving DecidableEq, Repr

/-- Does the event mutate the render target (insertions, removals, attribute
or property writes)?  Node creations and hook-effect bookkeeping events do
not by themselves mutate the tree. -/
def Ev.isDomMutation : Ev → Bool
  | .createElement _ _ => false
  | .createText _ _ => false
  | .cleanupRun _ => false
  | .effectRun _ => false
  | _ => true

/-- The live render target: a forest of DOM nodes identified by ids, with
per-parent ordered child lists and the per-node event-handler fields
(`dom.__eventName`) that `updateDomProps` reads back. -/
structure DomState where
  nextId : Nat
  kinds : List (Nat × DKind)
  textOf : List (Nat × String)
  kids : List (Nat × List Nat)
  parentOf : List (Nat × Nat)
  handlers : List (Nat × List (String × PropVal))
deriving DecidableEq, Repr

/-- One persisted hook slot: a plain state value, or an effect record
(dependency list, pending cleanup closure, effect closure — closures are
modelled by numeric ids resolved by an environment). -/
inductive HookSlot where
  | state (v : Value)
  | effect (deps : Option (List Value)) (cleanup : Option Nat) (eff : Nat)
deriving DecidableEq, Repr

/-- The hook store of the context object: identity path to hook-slot
sequence, per-path cursor, per-pass reachability set, and the active
component path stack (top = head). -/
structure Hooks where
  state : List (String × List HookSlot)
  cursor : List (String × Nat)
  visited : List String
  componentStack : List String
deriving DecidableEq, Repr

/-- The full mutable engine state threaded through the embedding: the DOM,
the hook store, the pending-effects queue, the event trace and the number of
render requests issued so far (`enqueueRender` calls). -/
structure RState where
  dom : DomState
  hooks : Hooks
  effectQueue : List (String × Nat)
  trace : List Ev
  renders : Nat
deriving DecidableEq, Repr

def emit (op : Ev) (st : RState) : RState :=
  { st with trace := st.trace ++ [op] }

/-- Ordered child list of a parent node. -/
def kidsOf (d : DomState) (p : Nat) : List Nat :=
  (mapLookup d.kids p).getD []

/-- DOM `node.parentNode`. -/
def parentNodeOf (d : DomState) (c : Nat) : Option Nat :=
  mapLookup d.parentOf c

/-- Element after `c` in a list. -/
def listAfter (l : List Nat) (c : Nat) : Option Nat :=
  match l with
  | [] => none
  | [_] => none
  | x :: y :: rest => if x = c then some y else listAfter (y :: rest) c

/-- Element before `c` in a list. -/
def listBefore (l : List Nat) (c : Nat) : Option Nat :=
  match l with
  | [] => none
  | [_] => none
  | x :: y :: rest => if y = c then some x else listBefore (y :: rest) c

/-- DOM `node.nextSibling`. -/
def nextSiblingOf (d : DomState) (c : Nat) : Option Nat :=
  match parentNodeOf d c with
  | none => none
  | some p => listAfter (kidsOf d p) c

/-- DOM `node.previousSibling`. -/
def prevSiblingOf (d : DomState) (c : Nat) : Option Nat :=
  match parentNodeOf d c with
  | none => none
  | some p => listBefore (kidsOf d p) c

/-- Is node `n` an element (not a text node)? -/
def isElem (d : DomState) (n : Nat) : Bool :=
  match mapLookup d.kinds n with
  | some (.elem _) => true
  | _ => false

/-- DOM `parent.firstElementChild`. -/
def firstElementChildOf (d : DomState) (p : Nat) : Option Nat :=
  (kidsOf d p).find? (fun n => isElem d n)

/-- Detach a node from its current parent, if any (the implicit first half of
DOM `insertBefore`/`appendChild` on an already-attached node). -/
def detachNode (c : Nat) (d : DomState) : DomState :=
  match mapLookup d.parentOf c with
  | none => d
  | some p =>
      { d with kids := mapSet d.kids p ((kidsOf d p).filter (fun x => x ≠ c)),
               parentOf := mapDelete d.parentOf c }

/-- Insert `c` into a child list before `anchor` (appending when the anchor
is absent, which the engine never relies on). -/
def insertIntoList (l : List Nat) (anchor c : Nat) : List Nat :=
  match l with
  | [] => [c]
  | x :: rest => if x = anchor then c :: x :: rest else x :: insertIntoList rest anchor c

/-- DOM `parent.insertBefore(c, anchor)` / `parent.appendChild(c)` (anchor
`none`), with the corresponding trace event. -/
def domInsertBefore (p c : Nat) (anchor : Option Nat) (st : RState) : RState :=
  let d := detachNode c st.dom
  let cur := kidsOf d p
  let newKids := match anchor with
    | none => cur ++ [c]
    | some a => insertIntoList cur a c
  let d := { d with kids := mapSet d.kids p newKids, parentOf := mapSet d.parentOf c p }
  emit (match anchor with
        | none => .appendChild p c
        | some a => .insertBefore p c a)
    { st with dom := d }

/-- DOM `parent.removeChild(c)` (call sites guard on `parentNode === parent`). -/
def domRemoveChild (p c : Nat) (st : RState) : RState :=
  let d := { st.dom with kids := mapSet st.dom.kids p ((kidsOf st.dom p).filter (fun x => x ≠ c)),
                         parentOf := mapDelete st.dom.parentOf c }
  emit (.removeChild p c) { st with dom := d }

/-- DOM `document.createElement(tag)`. -/
def domCreateElement (tag : String) (st : RState) : Nat × RState :=
  let id := st.dom.nextId
  let d := { st.dom with nextId := id + 1,
                         kinds := mapSet st.dom.kinds id (.elem tag),
                         kids := mapSet st.dom.kids id [] }
  (id, emit (.createElement id tag) { st with dom := d })

/-- DOM `document.createTextNode(value)`. -/
def domCreateTextNode (value : String) (st : RState) : Nat × RState :=
  let id := st.dom.nextId
  let d := { st.dom with nextId := id + 1,
                         kinds := mapSet st.dom.kinds id .textNode,
                         textOf := mapSet st.dom.textOf id value }
  (id, emit (.createText id value) { st with dom := d })

/-- DOM text-node `nodeValue` assignment. -/
def domSetText (id : Nat) (value : String) (st : RState) : RState :=
  emit (.setText id value)
    { st with dom := { st.dom with textOf := mapSet st.dom.textOf id value } }

/-- Read the stored event-handler field `dom.__eventName`. -/
def getHandler (d : DomState) (id : Nat) (event : String) : Option PropVal :=
  mapLookup ((mapLookup d.handlers id).getD []) event

/-- Write the event-handler field `dom.__eventName = value`. -/
def setHandler (id : Nat) (event : String) (v : PropVal) (st : RState) : RState :=
  let hs := (mapLookup st.dom.handlers id).getD []
  { st with dom := { st.dom with handlers := mapSet st.dom.handlers id (mapSet hs event v) } }

/-- Delete the event-handler field `delete dom.__eventName`. -/
def delHandler (id : Nat) (event : String) (st : RState) : RState :=
  let hs := (mapLookup st.dom.handlers id).getD []
  { st with dom := { st.dom with handlers := mapSet st.dom.handlers id (mapDelete hs event) } }

mutual

/-- Instance-tree to DOM-node collection on a non-null instance (the body of
`getDomNodes` of the host-tree adapter): Fragment and Component instances
collect their children's nodes recursively, Host and Text instances return
their own node. -/
def getDomNodesI (inst : Inst) : List Nat :=
  match inst with
  | .mk k d _ cs _ _ =>
      if k = .fragment ∨ k = .component then getDomNodesL cs
      else
        match d with
        | some id => [id]
        | none => []
  termination_by structural inst

/-- Child-list part of `getDomNodes`; null children are skipped as in the
source's `if (child)` guard. -/
def getDomNodesL (cs : List (Option Inst)) : List Nat :=
  match cs with
  | [] => []
  | some c :: rest => getDomNodesI c ++ getDomNodesL rest
  | none :: rest => getDomNodesL rest
  termination_by structural cs

end

/-- Instance-tree to DOM-node collection (`getDomNodes`): a null instance
yields no nodes. -/
def getDomNodes (inst? : Option Inst) : List Nat :=
  match inst? with
  | none => []
  | some inst => getDomNodesI inst

mutual

/-- First real DOM node of a non-null instance (the body of `getFirstDom`):
the cached own node, else the first found among the children. -/
def getFirstDomI (inst : Inst) : Option Nat :=
  match inst with
  | .mk _ d _ cs _ _ =>
      match d with
      | some id => some id
      | none => getFirstDomFromChildren cs
  termination_by structural inst

/-- First real DOM node found among children (`getFirstDomFromChildren`). -/
def getFirstDomFromChildren (cs : List (Option Inst)) : Option Nat :=
  match cs with
  | [] => none
  | some c :: rest =>
      match getFirstDomI c with
      | some id => some id
      | none => getFirstDomFromChildren rest
  | none :: rest => getFirstDomFromChildren rest
  termination_by structural cs

end

/-- First real DOM node of an instance (`getFirstDom`). -/
def getFirstDom (inst? : Option Inst) : Option Nat :=
  match inst? with
  | none => none
  | some inst => getFirstDomI inst

/-- Insert all DOM nodes of an instance into a parent, before the anchor
when one is given (`insertInstance`). -/
def insertInstance (parentDom : Nat) (inst? : Option Inst) (anchor : Option Nat)
    (st : RState) : RState :=
  match inst? with
  | none => st
  | some inst =>
      let nodes := getDomNodes (some inst)
      if nodes = [] then st
      else nodes.foldl (fun st n => domInsertBefore parentDom n anchor st) st

/-- Remove all DOM nodes of an instance from a parent, skipping nodes whose
current parent is no longer that parent (`removeInstance`). -/
def removeInstance (parentDom : Nat) (inst? : Option Inst) (st : RState) : RState :=
  match inst? with
  | none => st
  | some inst =>
      (getDomNodes (some inst)).foldl
        (fun st n =>
          if parentNodeOf st.dom n = some parentDom then domRemoveChild parentDom n st
          else st) st

/-- Event-prop name normalization (`onClick` to `click`). -/
def normalizeEventName (name : String) : String := (name.drop 2).toLower

/-- Is the prop an event handler (`on` prefix, length above 2)? -/
def isEventProp (name : String) : Bool := name.startsWith "on" && name.length > 2

/-- JavaScript `typeof v === "object"` (true also for null). -/
def pvalTypeofObject : PropVal → Bool
  | .style _ _ => true
  | .refObj _ => true
  | .nullV => true
  | _ => false

/-- One entry of `setDomProps`: the per-key branch chain of the source. -/
def setDomPropEntry (dom : Nat) (key : String) (value : PropVal) (st : RState) : RState :=
  if key = "children" then st
  else if isEventProp key then
    let eventName := normalizeEventName key
    let st := setHandler dom eventName value st
    if pvalTruthy value then emit (.addListener dom eventName) st else st
  else if key = "style" && pvalTypeofObject value && value ≠ .nullV then
    match value with
    | .style _ entries => entries.foldl (fun st e => emit (.setStyleKey dom e.1 e.2) st) st
    | _ => st
  else if key = "className" then emit (.setProp dom "className") st
  else if key.startsWith "data-" then emit (.setAttr dom key (pvalString value)) st
  else if key = "ref" then st
  else if pvalIsBool value then
    if pvalTruthy value then emit (.setProp dom key) (emit (.setAttr dom key "") st)
    else emit (.setProp dom key) (emit (.removeAttr dom key) st)
  else
    let st := emit (.setProp dom key) st
    if pvalNotNullish value then emit (.setAttr dom key (pvalString value)) st else st

/-- Apply all props of a freshly created host node (`setDomProps`). -/
def setDomProps (dom : Nat) (props : List (String × PropVal)) (st : RState) : RState :=
  props.foldl (fun st e => setDomPropEntry dom e.1 e.2 st) st

/-- Removal half of `updateDomProps`: a prev key absent from the next props. -/
def updateDomPropRemove (dom : Nat) (nextProps : List (String × PropVal))
    (key : String) (prevValue : PropVal) (st : RState) : RState :=
  if key = "children" then st
  else if (mapLookup nextProps key).isSome then st
  else if isEventProp key then
    let eventName := normalizeEventName key
    if pvalTruthy ((getHandler st.dom dom eventName).getD .undef) then
      delHandler dom eventName (emit (.removeListener dom eventName) st)
    else st
  else if key = "style" && pvalTypeofObject prevValue then emit (.clearStyle dom) st
  else if key = "className" then emit (.setProp dom "className") st
  else if key.startsWith "data-" then emit (.removeAttr dom key) st
  else if pvalIsBool prevValue then emit (.setProp dom key) (emit (.removeAttr dom key) st)
  else emit (.delProp dom key) (emit (.removeAttr dom key) st)

/-- Set half of `updateDomProps`: one next-props entry, diffed against the
prev value (reference/primitive identity, no deep comparison). -/
def updateDomPropSet (dom : Nat) (prevProps : List (String × PropVal))
    (key : String) (value : PropVal) (st : RState) : RState :=
  if key = "children" then st
  else
    let prevValue := (mapLookup prevProps key).getD .undef
    if isEventProp key then
      let eventName := normalizeEventName key
      let prevHandler := (getHandler st.dom dom eventName).getD .undef
      if pvalEq prevHandler value then st
      else
        let st := if pvalTruthy prevHandler then emit (.removeListener dom eventName) st else st
        if pvalTruthy value then setHandler dom eventName value (emit (.addListener dom eventName) st)
        else delHandler dom eventName st
    else if key = "style" && pvalTypeofObject value && value ≠ .nullV then
      match value, prevValue with
      | .style _ entries, .style _ prevEntries =>
          let st := prevEntries.foldl
            (fun st e =>
              if (mapLookup entries e.1).isSome then st
              else emit (.setStyleKey dom e.1 "") st) st
          entries.foldl (fun st e => emit (.setStyleKey dom e.1 e.2) st) st
      | .style _ entries, _ => entries.foldl (fun st e => emit (.setStyleKey dom e.1 e.2) st) st
      | _, _ => st
    else if key = "className" then
      if pvalEq prevValue value then st else emit (.setProp dom "className") st
    else if key.startsWith "data-" then
      if pvalEq prevValue value then st else emit (.setAttr dom key (pvalString value)) st
    else if key = "ref" then st
    else if pvalIsBool value then
      if pvalEq prevValue value then st
      else if pvalTruthy value then emit (.setProp dom key) (emit (.setAttr dom key "") st)
      else emit (.setProp dom key) (emit (.removeAttr dom key) st)
    else
      if pvalEq prevValue value then st
      else
        let st := emit (.setProp dom key) st
        if pvalNotNullish value then emit (.setAttr dom key (pvalString value)) st
        else emit (.removeAttr dom key) st

/-- Diff prev props against next props on a host node (`updateDomProps`):
first remove keys absent from the next props, then set changed keys. -/
def updateDomProps (dom : Nat) (prevProps nextProps : List (String × PropVal))
    (st : RState) : RState :=
  let st := prevProps.foldl (fun st e => updateDomPropRemove dom nextProps e.1 e.2 st) st
  nextProps.foldl (fun st e => updateDomPropSet dom prevProps e.1 e.2 st) st

/-- The `typeName` computed by `createChildPath` for an unkeyed child: host
tags verbatim, component function names (falling back to "Component" when the
function is anonymous), and "Unknown" for the symbol markers. -/
def typeNameOf (t : NType) : String :=
  match t with
  | .host tag => tag
  | .component _ name => if name = "" then "Component" else name
  | .textElem => "Unknown"
  | .fragment => "Unknown"

/-- JavaScript truthiness of a node-type value (`if (nodeType)`): symbols and
functions are truthy, a host tag string is truthy unless empty. -/
def ntypeTruthy : NType → Bool
  | .host tag => tag ≠ ""
  | _ => true

/-- Identity-path construction for a child slot (`createChildPath` of
elements.ts): keyed children get `parent.k<key>` independent of index and
type; unkeyed children get `parent.c<typeName>_<index>`; without a (truthy)
node type the fallback is `parent.i<index>`. -/
def createChildPath (parentPath : String) (key : Option String) (index : Nat)
    (nodeType : Option NType) (_siblings : List VNode) : String :=
  match key with
  | some k => parentPath ++ ".k" ++ k
  | none =>
      match nodeType with
      | some t =>
          if ntypeTruthy t then parentPath ++ ".c" ++ typeNameOf t ++ "_" ++ toString index
          else parentPath ++ ".i" ++ toString index
      | none => parentPath ++ ".i" ++ toString index

/-- Canonicalization of a component's raw render result (`normalizeNode` of
elements.ts).  Component results are modelled as already-canonical
`Option VNode` values (empty values are `none`), on which the source's
normalization acts as the identity: canonical nodes are returned unchanged
and empty values stay null. -/
def normalizeNode (node : Option VNode) : Option VNode := node

/-- Modelled from the spec: the scheduler utilities `withEnqueue`/`enqueue`
(src/packages/react/src/utils) are not under `src/`.  Per §4.3 a render
request while one is pending is a no-op within a tick; for the claims settled
here only the fact that a render was requested matters, recorded by a request
counter. -/
def enqueueRender (st : RState) : RState :=
  { st with renders := st.renders + 1 }

/-- Modelled from the spec: the context object (`core/context.ts`) is not
under `src/`.  Per §4.2/§4.1 the hooks know their target path through the
active-path stack pushed by the reconciler; `currentPath` is its top. -/
def currentPath (h : Hooks) : String := h.componentStack.headD ""

/-- Modelled from the spec: the per-path cursor of the current component
(zero when the path has no cursor entry yet). -/
def currentCursor (h : Hooks) : Nat := (mapLookup h.cursor (currentPath h)).getD 0

/-- Modelled from the spec: the ordered hook-slot sequence stored for the
current path (empty when the path has no slots yet). -/
def currentHooks (h : Hooks) : List HookSlot := (mapLookup h.state (currentPath h)).getD []

/-- Value read out of a hook slot by `hooks[cursor] as T`.  Reading an effect
record as a state value is a hook-order contract violation with undefined
correctness (spec §7); it is modelled as the undefined value. -/
def slotValue : HookSlot → Value
  | .state v => v
  | .effect _ _ _ => Value.undef

/-- The body of `useState` up to returning the pair: on a first render at
this path+cursor the initial value is pushed and stored, then the current
value is read and the cursor advanced.  The returned setter closure is
modelled separately by `setState`, applied to the captured path and cursor. -/
def useState (initialValue : Value) (st : RState) : Value × RState :=
  let path := currentPath st.hooks
  let cursor := currentCursor st.hooks
  let hooks := currentHooks st.hooks
  let (hooks, st) :=
    if hooks.length ≤ cursor then
      let hooks := hooks ++ [HookSlot.state initialValue]
      (hooks, { st with hooks := { st.hooks with state := mapSet st.hooks.state path hooks } })
    else (hooks, st)
  let currentValue := slotValue ((hooks[cursor]?).getD (.state .undef))
  let st := { st with hooks := { st.hooks with cursor := mapSet st.hooks.cursor path (cursor + 1) } }
  (currentValue, st)

/-- The setter closure returned by `useState`, captured at a path and cursor:
computes the next value (directly or via an updater over the previous value),
skips entirely when `Object.is` finds the values identical, and otherwise
commits the value and requests a render. -/
def setState (path : String) (cursor : Nat) (nextValue : Value ⊕ (Value → Value))
    (st : RState) : RState :=
  let hooks := (mapLookup st.hooks.state path).getD []
  let currentValue := slotValue ((hooks[cursor]?).getD (.state .undef))
  let newValue :=
    match nextValue with
    | .inl v => v
    | .inr f => f currentValue
  if objectIs currentValue newValue then st
  else
    let hooks := listSet hooks cursor (.state newValue) (.state .undef)
    let st := { st with hooks := { st.hooks with state := mapSet st.hooks.state path hooks } }
    enqueueRender st

/-- Modelled from the spec: `shallowEquals` (src/packages/react/src/utils) is
not under `src/`.  Per §4.2 the dependency comparison is an ordered shallow
element comparison; a stored null dependency list is not equal to a list. -/
def shallowEqualsDeps : Option (List Value) → List Value → Bool
  | none, _ => false
  | some prev, deps => prev.length = deps.length && (List.zip prev deps).all (fun p => objectIs p.1 p.2)

/-- The body of `useEffect`: fetch the previous effect record at the cursor
(if the slot holds one), decide whether to re-run (no previous record, no
dependency list, or shallowly changed dependencies), store the new effect
record carrying over the pending cleanup, enqueue the slot when it should
run, and advance the cursor.  Effect closures are numeric ids. -/
def useEffect (eff : Nat) (deps : Option (List Value)) (st : RState) : RState :=
  let path := currentPath st.hooks
  let cursor := currentCursor st.hooks
  let hooks := currentHooks st.hooks
  let prevHook : Option HookSlot :=
    if cursor < hooks.length then
      match hooks[cursor]? with
      | some (.effect d c e) => some (.effect d c e)
      | _ => none
    else none
  let shouldRun :=
    match prevHook, deps with
    | none, _ => true
    | some _, none => true
    | some (.effect prevDeps _ _), some ds => !shallowEqualsDeps prevDeps ds
    | some (.state _), some _ => true
  let effectHook : HookSlot :=
    .effect deps (match prevHook with | some (.effect _ c _) => c | _ => none) eff
  let hooks :=
    if hooks.length ≤ cursor then hooks ++ [effectHook]
    else listSet hooks cursor effectHook (.state .undef)
  let st := { st with hooks := { st.hooks with state := mapSet st.hooks.state path hooks } }
  let st := if shouldRun then { st with effectQueue := st.effectQueue ++ [(path, cursor)] } else st
  { st with hooks := { st.hooks with cursor := mapSet st.hooks.cursor path (cursor + 1) } }

/-- Cleanup closures invoked while garbage-collecting one path's slot
sequence: every effect slot with a stored cleanup, in slot order. -/
def effectCleanups (slots : List HookSlot) : List Ev :=
  slots.foldl
    (fun evs slot =>
      match slot with
      | .effect _ (some c) _ => evs ++ [.cleanupRun c]
      | _ => evs) []

/-- Iteration of `cleanupUnusedHooks` over the snapshot of store entries:
every path absent from the reachability set has its effect cleanups invoked
and its slot sequence and cursor deleted. -/
def gcGo : List (String × List HookSlot) → List String → Hooks → List Ev → List Ev × Hooks
  | [], _, h, evs => (evs, h)
  | (path, hooksArray) :: rest, visited, h, evs =>
      if path ∈ visited then gcGo rest visited h evs
      else
        gcGo rest visited
          { h with state := mapDelete h.state path, cursor := mapDelete h.cursor path }
          (evs ++ effectCleanups hooksArray)

/-- Garbage collection of stale hook state (`cleanupUnusedHooks`), run once
after a completed pass: purge every path in the store that the pass did not
visit, then clear the reachability set. -/
def cleanupUnusedHooks (h : Hooks) : List Ev × Hooks :=
  let (evs, h) := gcGo h.state h.visited h []
  (evs, { h with visited := [] })

/-- Previous child instance at a given array index (reference identity of
JavaScript instance objects is modelled by this index). -/
def prevAt (prevChildren : List (Option Inst)) (j : Nat) : Option Inst :=
  (prevChildren[j]?).getD none

/-- Add a path to the reachability set (`Set.add`: no duplicates). -/
def visitAdd (path : String) (h : Hooks) : Hooks :=
  if path ∈ h.visited then h else { h with visited := h.visited ++ [path] }

/-- Identity-path migration of hook state (the `oldPath !== path` block of
`updateComponent` and of `reconcile`): move the slot sequence, the cursor and
the reachability marker from the old path to the new one. -/
def migrateHookPath (oldPath newPath : String) (h : Hooks) : Hooks :=
  let h : Hooks :=
    match mapLookup h.state oldPath with
    | some oldState => { h with state := mapDelete (mapSet h.state newPath oldState) oldPath }
    | none => h
  let h : Hooks :=
    match mapLookup h.cursor oldPath with
    | some oldCursor => { h with cursor := mapDelete (mapSet h.cursor newPath oldCursor) oldPath }
    | none => h
  if h.visited.contains oldPath then
    let v := h.visited.filter (fun p => p != oldPath)
    { h with visited := if v.contains newPath then v else v ++ [newPath] }
  else h

/-- JavaScript `Array.isArray(node.props.children) && length === 0`: for
component nodes `createElement` leaves `props.children` undefined when empty,
so the check is false there; for host/fragment/text nodes `props.children` is
always an array. -/
def childrenIsEmptyArray (n : VNode) : Bool :=
  match n.type with
  | .component _ _ => false
  | _ => n.children.isEmpty

/-- Key-to-previous-child map built at the start of a Host/Fragment update
(last registration wins, as with `Map.set`). -/
def buildKeyedMap (prevChildren : List (Option Inst)) : List (String × Nat) :=
  (prevChildren.enum).foldl
    (fun m e =>
      match e.2 with
      | some c =>
          match c.key with
          | some k => mapSet m k e.1
          | none => m
      | none => m) []

/-- Stage one of unkeyed matching: the first not-yet-consumed previous child
whose identity path equals the expected path of this slot. -/
def findByPathMatch : List (Option Inst) → Nat → List Nat → String → Option Nat
  | [], _, _, _ => none
  | none :: rest, j, used, p => findByPathMatch rest (j + 1) used p
  | some prev :: rest, j, used, p =>
      if used.contains j = false ∧ prev.path = p then some j
      else findByPathMatch rest (j + 1) used p

/-- Stage two candidate collection: not-yet-consumed unkeyed previous
children of the same node type, with their original indices. -/
def hostCandidates : List (Option Inst) → Nat → List Nat → NType → List (Nat × Inst)
  | [], _, _, _ => []
  | none :: rest, j, used, t => hostCandidates rest (j + 1) used t
  | some prev :: rest, j, used, t =>
      if used.contains j = false ∧ prev.key = none ∧ prev.node.type = t then
        (j, prev) :: hostCandidates rest (j + 1) used t
      else hostCandidates rest (j + 1) used t

/-- Distance between a candidate's original index and the new index
(`Math.abs(candidate.index - i)`). -/
def natDist (a b : Nat) : Nat := max a b - min a b

/-- The candidate nearest by original index to the new index (first one on
ties, as the source's strict-less fold keeps the earliest best). -/
def nearestCandidate (cands : List (Nat × Inst)) (i : Nat) : Option (Nat × Inst) :=
  match cands with
  | [] => none
  | first :: rest =>
      some (rest.foldl (fun best c => if natDist c.1 i < natDist best.1 i then c else best) first)

/-- Last-slot reverse scan: the last (highest-index) not-yet-consumed unkeyed
previous child of the same type. -/
def lastScanGo : List (Option Inst) → Nat → List Nat → NType → Option Nat
  | [], _, _, _ => none
  | c? :: rest, j, used, t =>
      match lastScanGo rest (j + 1) used t with
      | some r => some r
      | none =>
          match c? with
          | some prev =>
              if used.contains j = false ∧ prev.key = none ∧ prev.node.type = t then some j
              else none
          | none => none

/-- Fallback after a failed reverse scan: the candidate with the largest
original index (dead in practice, kept for faithfulness). -/
def maxIndexCandidate (cands : List (Nat × Inst)) : Option Nat :=
  cands.foldl
    (fun best c =>
      match best with
      | none => some c.1
      | some m => if c.1 > m then some c.1 else some m) none

/-- Child matching of a Host update (the `childInstances` loop of
`updateHost`): keyed lookup, else identity-path continuity, else the
nearest same-type unkeyed candidate with the last-slot special case. -/
def matchHostChild (prevChildren : List (Option Inst)) (keyedMap : List (String × Nat))
    (used : List Nat) (path : String) (nextChildren : List VNode) (lastIndex i : Nat)
    (childNode : VNode) : Option Nat :=
  match childNode.key with
  | some k => mapLookup keyedMap k
  | none =>
      let expectedPath := createChildPath path none i (some childNode.type) nextChildren
      match findByPathMatch prevChildren 0 used expectedPath with
      | some j => some j
      | none =>
          let candidates := hostCandidates prevChildren 0 used childNode.type
          if candidates.isEmpty then none
          else if i = lastIndex then
            match lastScanGo prevChildren 0 used childNode.type with
            | some j => some j
            | none => maxIndexCandidate candidates
          else (nearestCandidate candidates i).map (fun c => c.1)

/-- Fold of `matchHostChild` over the next children, threading the consumed
set; returns per-slot matched previous indices and the final consumed set. -/
def matchHostGo (prevChildren : List (Option Inst)) (keyedMap : List (String × Nat))
    (path : String) (allNext : List VNode) (lastIndex : Nat) :
    List VNode → Nat → List Nat → List (Option Nat) → List (Option Nat) × List Nat
  | [], _, used, acc => (acc.reverse, used)
  | c :: rest, i, used, acc =>
      match matchHostChild prevChildren keyedMap used path allNext lastIndex i c with
      | some j => matchHostGo prevChildren keyedMap path allNext lastIndex rest (i + 1) (used ++ [j]) (some j :: acc)
      | none => matchHostGo prevChildren keyedMap path allNext lastIndex rest (i + 1) used (none :: acc)

/-- Child matching of a Fragment update (`updateFragment`): keyed lookup,
else identity-path continuity only. -/
def matchFragChild (prevChildren : List (Option Inst)) (keyedMap : List (String × Nat))
    (used : List Nat) (path : String) (nextChildren : List VNode) (i : Nat)
    (childNode : VNode) : Option Nat :=
  match childNode.key with
  | some k => mapLookup keyedMap k
  | none =>
      findByPathMatch prevChildren 0 used (createChildPath path none i (some childNode.type) nextChildren)

/-- Fold of `matchFragChild` over the next children. -/
def matchFragGo (prevChildren : List (Option Inst)) (keyedMap : List (String × Nat))
    (path : String) (allNext : List VNode) :
    List VNode → Nat → List Nat → List (Option Nat) → List (Option Nat) × List Nat
  | [], _, used, acc => (acc.reverse, used)
  | c :: rest, i, used, acc =>
      match matchFragChild prevChildren keyedMap used path allNext i c with
      | some j => matchFragGo prevChildren keyedMap path allNext rest (i + 1) (used ++ [j]) (some j :: acc)
      | none => matchFragGo prevChildren keyedMap path allNext rest (i + 1) used (none :: acc)

/-- First previous child with the given key whose first DOM node is still a
child of the given parent (the keyed anchor scan; a key match with an invalid
DOM does not stop the scan). -/
def firstValidKeyedDom (d : DomState) (parentId : Nat) :
    List (Option Inst) → String → Option Nat
  | [], _ => none
  | c? :: rest, k =>
      match c? with
      | some prev =>
          if prev.key = some k then
            match getFirstDom (some prev) with
            | some pd =>
                if parentNodeOf d pd = some parentId then some pd
                else firstValidKeyedDom d parentId rest k
            | none => firstValidKeyedDom d parentId rest k
          else firstValidKeyedDom d parentId rest k
      | none => firstValidKeyedDom d parentId rest k

/-- Anchor for slot `i` of a Host update, given the anchor of slot `i+1`:
prefer the current DOM position of the next slot's keyed previous child, then
the next slot's matched instance's DOM position. -/
def hostAnchorAt (d : DomState) (domId : Nat) (prevChildren : List (Option Inst))
    (nextChildren : List VNode) (matchIdx : List (Option Nat)) (i : Nat)
    (anchorNext : Option Nat) : Option Nat :=
  match nextChildren[i + 1]? with
  | none => anchorNext
  | some nextChildNode =>
      let anchor :=
        match nextChildNode.key with
        | some k =>
            match firstValidKeyedDom d domId prevChildren k with
            | some pd => some pd
            | none => anchorNext
        | none => anchorNext
      let nextInst? : Option Inst :=
        match matchIdx[i + 1]? with
        | some (some j) => prevAt prevChildren j
        | _ => none
      if anchor = anchorNext then
        match nextInst? with
        | some nexti =>
            match getFirstDom (some nexti) with
            | some nd => if parentNodeOf d nd = some domId then some nd else anchor
            | none => anchor
        | none => anchor
      else anchor

/-- Reverse anchor computation of a Host update: entry `k` of the result
holds the anchors for slots `n-k .. n` (with the sentinel `none` at slot
`n`). -/
def hostAnchorsGo (d : DomState) (domId : Nat) (prevChildren : List (Option Inst))
    (nextChildren : List VNode) (matchIdx : List (Option Nat)) (n : Nat) :
    Nat → List (Option Nat)
  | 0 => [none]
  | k + 1 =>
      let rest := hostAnchorsGo d domId prevChildren nextChildren matchIdx n k
      hostAnchorAt d domId prevChildren nextChildren matchIdx (n - (k + 1)) (rest.headD none) :: rest

/-- The anchors array of a Host update (length one more than the child count,
`anchors[n] = null`). -/
def buildAnchorsHost (d : DomState) (domId : Nat) (prevChildren : List (Option Inst))
    (nextChildren : List VNode) (matchIdx : List (Option Nat)) : List (Option Nat) :=
  hostAnchorsGo d domId prevChildren nextChildren matchIdx nextChildren.length nextChildren.length

/-- Anchor for slot `i` of a Fragment update: prefer the next slot's matched
instance's DOM position, then the next slot's keyed previous child's DOM
position (the priorities are swapped relative to Host updates). -/
def fragAnchorAt (d : DomState) (parentId : Nat) (prevChildren : List (Option Inst))
    (nextChildren : List VNode) (matchIdx : List (Option Nat)) (i : Nat)
    (anchorNext : Option Nat) : Option Nat :=
  match nextChildren[i + 1]? with
  | none => anchorNext
  | some nextChildNode =>
      let nextInst? : Option Inst :=
        match matchIdx[i + 1]? with
        | some (some j) => prevAt prevChildren j
        | _ => none
      let anchor :=
        match nextInst? with
        | some ni =>
            match getFirstDom (some ni) with
            | some nd => if parentNodeOf d nd = some parentId then some nd else anchorNext
            | none => anchorNext
        | none => anchorNext
      if anchor = anchorNext then
        match nextChildNode.key with
        | some k =>
            match firstValidKeyedDom d parentId prevChildren k with
            | some pd => some pd
            | none => anchor
        | none => anchor
      else anchor

/-- Reverse anchor computation of a Fragment update. -/
def fragAnchorsGo (d : DomState) (parentId : Nat) (prevChildren : List (Option Inst))
    (nextChildren : List VNode) (matchIdx : List (Option Nat)) (n : Nat) :
    Nat → List (Option Nat)
  | 0 => [none]
  | k + 1 =>
      let rest := fragAnchorsGo d parentId prevChildren nextChildren matchIdx n k
      fragAnchorAt d parentId prevChildren nextChildren matchIdx (n - (k + 1)) (rest.headD none) :: rest

/-- The anchors array of a Fragment update. -/
def buildAnchorsFrag (d : DomState) (parentId : Nat) (prevChildren : List (Option Inst))
    (nextChildren : List VNode) (matchIdx : List (Option Nat)) : List (Option Nat) :=
  fragAnchorsGo d parentId prevChildren nextChildren matchIdx nextChildren.length nextChildren.length

/-- The keyed relocation block of `updateHost`'s processing loop (executed
when the matched keyed child's first DOM node is still under this parent):
decide whether to move via `needsMove`, then issue the insert/append. -/
def keyedMoveStep (domId i currentDom : Nat) (anchor : Option Nat) (st : RState) : RState :=
  let currentNextSibling := nextSiblingOf st.dom currentDom
  match anchor with
  | some anc =>
      let anchorPrevSibling := prevSiblingOf st.dom anc
      let currentPrevSibling := prevSiblingOf st.dom currentDom
      let needsMove :=
        currentNextSibling ≠ some anc ∨ some currentDom ≠ anchorPrevSibling ∨
          currentPrevSibling ≠ none
      if needsMove then
        if some currentDom ≠ anchorPrevSibling ∨ currentPrevSibling ≠ none then
          if currentPrevSibling ≠ none ∧ i = 0 then
            match firstElementChildOf st.dom domId with
            | some firstChild =>
                if firstChild ≠ currentDom then domInsertBefore domId currentDom (some firstChild) st
                else st
            | none => st
          else domInsertBefore domId currentDom (some anc) st
        else st
      else st
  | none =>
      if currentNextSibling ≠ none then domInsertBefore domId currentDom none st
      else st

/-- Removal of previous children never matched by any next child (DOM nodes
whose parent has already changed are skipped). -/
def removeUnusedGo (domId : Nat) (used : List Nat) :
    List (Option Inst) → Nat → RState → RState
  | [], _, st => st
  | c? :: rest, j, st =>
      let st :=
        match c? with
        | some child =>
            if used.contains j = false then
              (getDomNodes (some child)).foldl
                (fun st n =>
                  if parentNodeOf st.dom n = some domId then domRemoveChild domId n st else st) st
            else st
        | none => st
      removeUnusedGo domId used rest (j + 1) st

/-- Removal loop over unmatched previous children. -/
def removeUnusedPrevChildren (domId : Nat) (prevChildren : List (Option Inst))
    (used : List Nat) (st : RState) : RState :=
  removeUnusedGo domId used prevChildren 0 st

/-- Removal of leftover entries of the key map after the processing loop. -/
def removeKeyedLeftovers (domId : Nat) (prevChildren : List (Option Inst))
    (keyedMap : List (String × Nat)) (st : RState) : RState :=
  keyedMap.foldl
    (fun st e =>
      match prevAt prevChildren e.2 with
      | some unusedChild =>
          (getDomNodes (some unusedChild)).foldl
            (fun st n =>
              if parentNodeOf st.dom n = some domId then domRemoveChild domId n st else st) st
      | none => st) st

/-- Text-node mount (`mountText`): create the text node, insert it (before
the anchor when given), and record the instance with an empty path. -/
def mountText (parentDom : Nat) (node : VNode) (anchor : Option Nat) (st : RState) :
    Inst × RState :=
  let (textNode, st) := domCreateTextNode node.nodeValue st
  let st := domInsertBefore parentDom textNode anchor st
  (.mk .text (some textNode) node [] node.key "", st)

/-- Text-node update (`updateText`): assign `nodeValue` unconditionally when
the instance owns a DOM node, and store the new node. -/
def updateText (inst : Inst) (node : VNode) (st : RState) : Inst × RState :=
  let st :=
    match inst.dom with
    | some d => domSetText d node.nodeValue st
    | none => st
  (.mk .text inst.dom node inst.children inst.key inst.path, st)

/-- Component environment: resolves a component function id to its body,
which receives the node's props, may call hooks against the threaded state,
and returns a canonical child node or null. -/
abbrev CompEnv := Nat → VNode → RState → Option VNode × RState

mutual

/-- The reconciler entry point (`reconcile`), in dispatch order: a null next
node unmounts; a missing previous instance mounts by kind; a type or key
mismatch unmounts the old instance and mounts fresh; otherwise the instance
is updated in place.  The source's recursion is bounded here by explicit
fuel; `none` means fuel exhaustion, never a source-level result. -/
def reconcile (env : CompEnv) (fuel : Nat) (parentDom : Nat) (inst? : Option Inst)
    (node? : Option VNode) (path : String) (anchor : Option Nat) (st : RState) :
    Option (Option Inst × RState) :=
  match fuel with
  | 0 => none
  | fuel + 1 =>
    match node? with
    | none =>
        let st :=
          match inst? with
          | some inst =>
              if inst.kind = .fragment then
                inst.children.foldl
                  (fun st child =>
                    match child with
                    | some c =>
                        (getDomNodes (some c)).foldl
                          (fun st n =>
                            if parentNodeOf st.dom n = some parentDom then
                              domRemoveChild parentDom n st
                            else st) st
                    | none => st) st
              else removeInstance parentDom (some inst) st
          | none => st
        some (none, st)
    | some node =>
        match inst? with
        | none =>
            match mountNode env fuel parentDom node path anchor st with
            | none => none
            | some (inst, st) => some (some inst, st)
        | some inst =>
            if inst.node.type ≠ node.type ∨ inst.key ≠ node.key then
              let st := removeInstance parentDom (some inst) st
              match mountNode env fuel parentDom node path anchor st with
              | none => none
              | some (newInst, st) => some (some newInst, st)
            else
              let upd? : Option (Inst × RState) :=
                if node.type = .textElem then some (updateText inst node st)
                else if node.type = .fragment then updateFragment env fuel parentDom inst node path st
                else
                  match node.type with
                  | .component _ _ => updateComponent env fuel parentDom inst node path st
                  | _ => updateHost env fuel parentDom inst node path st
              match upd? with
              | none => none
              | some (updatedInstance, st) =>
                  let oldPath := updatedInstance.path
                  let st :=
                    if oldPath ≠ path ∧ updatedInstance.kind = .component then
                      { st with hooks := migrateHookPath oldPath path st.hooks }
                    else st
                  some (some (updatedInstance.withPath path), st)
  termination_by structural fuel

/-- Mount dispatch by node kind, as duplicated in branches two and three of
`reconcile`: Text, Fragment, Component (function type), else Host. -/
def mountNode (env : CompEnv) (fuel : Nat) (parentDom : Nat) (node : VNode) (path : String)
    (anchor : Option Nat) (st : RState) : Option (Inst × RState) :=
  match fuel with
  | 0 => none
  | fuel + 1 =>
      if node.type = .textElem then some (mountText parentDom node anchor st)
      else if node.type = .fragment then mountFragment env fuel parentDom node path anchor st
      else
        match node.type with
        | .component _ _ => mountComponent env fuel parentDom node path anchor st
        | _ => mountHost env fuel parentDom node path anchor st
  termination_by structural fuel

/-- Component mount (`mountComponent`): push the identity path, reset its
cursor, mark it reachable, run the component function once, reconcile its
child result at the derived child path, cache the first DOM node, and pop the
path stack. -/
def mountComponent (env : CompEnv) (fuel : Nat) (parentDom : Nat) (node : VNode)
    (path : String) (anchor : Option Nat) (st : RState) : Option (Inst × RState) :=
  match fuel with
  | 0 => none
  | fuel + 1 =>
      let compId := match node.type with | .component id _ => id | _ => 0
      let st := { st with hooks := { st.hooks with
                    componentStack := path :: st.hooks.componentStack,
                    cursor := mapSet st.hooks.cursor path 0 } }
      let st := { st with hooks := visitAdd path st.hooks }
      let (childNode, st) := env compId node st
      let ci? :=
        match childNode with
        | some cn => reconcile env fuel parentDom none (some cn) (path ++ ".c0") anchor st
        | none => some (none, st)
      match ci? with
      | none => none
      | some (childInstance, st) =>
          let children : List (Option Inst) :=
            match childInstance with
            | some ci => [some ci]
            | none => []
          let inst0 : Inst := .mk .component none node children node.key path
          let inst : Inst := .mk .component (getFirstDom (some inst0)) node children node.key path
          let st := { st with hooks := { st.hooks with
                        componentStack := st.hooks.componentStack.tail } }
          some (inst, st)
  termination_by structural fuel

/-- Component update (`updateComponent`): migrate hook state when the path
changed, push the path and reset the cursor (remembering the previous cursor
value), mark reachable, re-run the component function, normalize the result,
reconcile the single child (removing it when the result is null or when an
empty child list replaces a Fragment child), and finally pop the stack and
restore the cursor. -/
def updateComponent (env : CompEnv) (fuel : Nat) (parentDom : Nat) (inst : Inst)
    (node : VNode) (path : String) (st : RState) : Option (Inst × RState) :=
  match fuel with
  | 0 => none
  | fuel + 1 =>
      let compId := match node.type with | .component id _ => id | _ => 0
      let oldPath := inst.path
      let st :=
        if oldPath ≠ path then { st with hooks := migrateHookPath oldPath path st.hooks }
        else st
      let prevCursor := (mapLookup st.hooks.cursor path).getD 0
      let st := { st with hooks := { st.hooks with
                    componentStack := path :: st.hooks.componentStack,
                    cursor := mapSet st.hooks.cursor path 0 } }
      let st := { st with hooks := visitAdd path st.hooks }
      let (rawChildNode, st) := env compId node st
      let childNode := normalizeNode rawChildNode
      let prevChild : Option Inst := inst.children.headD none
      let shouldRemovePrevChild : Bool :=
        childNode.isNone ||
          (match childNode, prevChild with
           | some cn, some pc => childrenIsEmptyArray cn && pc.kind == .fragment
           | _, _ => false)
      let ci? :=
        if shouldRemovePrevChild then
          reconcile env fuel parentDom prevChild none (path ++ ".c0") none st
        else
          match childNode with
          | some cn => reconcile env fuel parentDom prevChild (some cn) (path ++ ".c0") none st
          | none => reconcile env fuel parentDom prevChild none (path ++ ".c0") none st
      match ci? with
      | none => none
      | some (childInstance, st) =>
          let children : List (Option Inst) :=
            match childInstance with
            | some ci => [some ci]
            | none => []
          let inst0 : Inst := .mk .component none node children inst.key path
          let newInst : Inst := .mk .component (getFirstDom (some inst0)) node children inst.key path
          let st := { st with hooks := { st.hooks with
                        componentStack := st.hooks.componentStack.tail,
                        cursor := mapSet st.hooks.cursor path prevCursor } }
          some (newInst, st)
  termination_by structural fuel

/-- Host mount (`mountHost`): create the element, apply its props, mount the
children into it positionally, then insert the element into the parent
(before the anchor when given). -/
def mountHost (env : CompEnv) (fuel : Nat) (parentDom : Nat) (node : VNode)
    (path : String) (anchor : Option Nat) (st : RState) : Option (Inst × RState) :=
  match fuel with
  | 0 => none
  | fuel + 1 =>
      let tag := match node.type with | .host t => t | _ => ""
      let (dom, st) := domCreateElement tag st
      let st := setDomProps dom node.attrs st
      match mountHostKids env fuel dom path node.children node.children 0 st with
      | none => none
      | some (children, st) =>
          let st := domInsertBefore parentDom dom anchor st
          some (.mk .host (some dom) node children node.key path, st)
  termination_by structural fuel

/-- Child-mount loop of `mountHost` (ascending order, no anchors). -/
def mountHostKids (env : CompEnv) (fuel : Nat) (dom : Nat) (path : String)
    (allKids : List VNode) (kids : List VNode) (i : Nat) (st : RState) :
    Option (List (Option Inst) × RState) :=
  match fuel with
  | 0 => none
  | fuel + 1 =>
      match kids with
      | [] => some ([], st)
      | childNode :: rest =>
          let childPath := createChildPath path childNode.key i (some childNode.type) allKids
          match reconcile env fuel dom none (some childNode) childPath none st with
          | none => none
          | some (ci, st) =>
              match mountHostKids env fuel dom path allKids rest (i + 1) st with
              | none => none
              | some (cis, st) => some (ci :: cis, st)
  termination_by structural fuel

/-- Fragment mount (`mountFragment`): children are mounted from the last one
backwards so each mounted child becomes the anchor for the one before it. -/
def mountFragment (env : CompEnv) (fuel : Nat) (parentDom : Nat) (node : VNode)
    (path : String) (anchor : Option Nat) (st : RState) : Option (Inst × RState) :=
  match fuel with
  | 0 => none
  | fuel + 1 =>
      match mountFragmentKids env fuel parentDom path node.children node.children 0 anchor st with
      | none => none
      | some (instances, _, st) =>
          let inst0 : Inst := .mk .fragment none node instances node.key path
          some (.mk .fragment (getFirstDom (some inst0)) node instances node.key path, st)
  termination_by structural fuel

/-- Descending child-mount loop of `mountFragment`: the suffix is mounted
first and the resulting first DOM node becomes the next anchor. -/
def mountFragmentKids (env : CompEnv) (fuel : Nat) (parentDom : Nat) (path : String)
    (allKids : List VNode) (kids : List VNode) (i : Nat) (anchor : Option Nat)
    (st : RState) : Option (List (Option Inst) × Option Nat × RState) :=
  match fuel with
  | 0 => none
  | fuel + 1 =>
      match kids with
      | [] => some ([], anchor, st)
      | childNode :: rest =>
          match mountFragmentKids env fuel parentDom path allKids rest (i + 1) anchor st with
          | none => none
          | some (restInsts, anchorAfter, st) =>
              let childPath := createChildPath path childNode.key i (some childNode.type) allKids
              match reconcile env fuel parentDom none (some childNode) childPath anchorAfter st with
              | none => none
              | some (ci, st) =>
                  let newAnchor :=
                    match ci with
                    | some c =>
                        match getFirstDom (some c) with
                        | some cd => some cd
                        | none => anchorAfter
                    | none => anchorAfter
                  some (ci :: restInsts, newAnchor, st)
  termination_by structural fuel

/-- Host update (`updateHost`): diff the props, match previous children to
next children (keyed map, then path continuity, then same-type nearest
candidate), compute the anchors backwards, process each slot forwards —
relocating matched keyed children per `keyedMoveStep` before reconciling —
then remove the previous children never matched. -/
def updateHost (env : CompEnv) (fuel : Nat) (parentDom : Nat) (inst : Inst)
    (node : VNode) (path : String) (st : RState) : Option (Inst × RState) :=
  match fuel with
  | 0 => none
  | fuel + 1 =>
      let dom := inst.dom.getD 0
      let st := updateDomProps dom inst.node.attrs node.attrs st
      let prevChildren := inst.children
      let nextChildren := node.children
      let keyedMap := buildKeyedMap prevChildren
      let (matchIdx, used) :=
        matchHostGo prevChildren keyedMap path nextChildren (nextChildren.length - 1)
          nextChildren 0 [] []
      let anchors := buildAnchorsHost st.dom dom prevChildren nextChildren matchIdx
      match processHostKids env fuel dom path prevChildren nextChildren matchIdx anchors keyedMap 0 st with
      | none => none
      | some (newChildren, keyedMapAfter, st) =>
          let st := removeUnusedPrevChildren dom prevChildren used st
          let st := removeKeyedLeftovers dom prevChildren keyedMapAfter st
          some (.mk .host inst.dom node newChildren inst.key path, st)
  termination_by structural fuel

/-- Forward processing loop of `updateHost`: per slot, delete the consumed
key from the key map, run the keyed relocation block, reconcile into the slot
with its anchor, and refresh the child's path field. -/
def processHostKids (env : CompEnv) (fuel : Nat) (dom : Nat) (path : String)
    (prevChildren : List (Option Inst)) (allNext : List VNode)
    (matchIdx : List (Option Nat)) (anchors : List (Option Nat))
    (keyedMap : List (String × Nat)) (i : Nat) (st : RState) :
    Option (List (Option Inst) × List (String × Nat) × RState) :=
  match fuel with
  | 0 => none
  | fuel + 1 =>
      match allNext[i]? with
      | none => some ([], keyedMap, st)
      | some childNode =>
          let childKey := childNode.key
          let childPath := createChildPath path childKey i (some childNode.type) allNext
          let childInstance : Option Inst :=
            match matchIdx[i]? with
            | some (some j) => prevAt prevChildren j
            | _ => none
          let keyedMap :=
            match childInstance, childKey with
            | some _, some k => mapDelete keyedMap k
            | _, _ => keyedMap
          let anchor := (anchors[i]?).getD none
          let st :=
            match childInstance, childKey with
            | some ci, some k =>
                if ci.key = some k then
                  match getFirstDom (some ci) with
                  | some currentDom =>
                      if parentNodeOf st.dom currentDom = some dom then
                        keyedMoveStep dom i currentDom anchor st
                      else st
                  | none => st
                else st
            | _, _ => st
          match reconcile env fuel dom childInstance (some childNode) childPath anchor st with
          | none => none
          | some (ci, st) =>
              let ci : Option Inst :=
                match ci with
                | some c => if c.path ≠ childPath then some (c.withPath childPath) else some c
                | none => none
              match processHostKids env fuel dom path prevChildren allNext matchIdx anchors keyedMap (i + 1) st with
              | none => none
              | some (rest, keyedMapFinal, st) => some (ci :: rest, keyedMapFinal, st)
  termination_by structural fuel

/-- Fragment update (`updateFragment`): like the Host update but matching is
keyed map then path continuity only, anchors prefer the matched instance over
the keyed scan, and there is no keyed relocation block. -/
def updateFragment (env : CompEnv) (fuel : Nat) (parentDom : Nat) (inst : Inst)
    (node : VNode) (path : String) (st : RState) : Option (Inst × RState) :=
  match fuel with
  | 0 => none
  | fuel + 1 =>
      let prevChildren := inst.children
      let nextChildren := node.children
      let keyedMap := buildKeyedMap prevChildren
      let (matchIdx, used) := matchFragGo prevChildren keyedMap path nextChildren nextChildren 0 [] []
      let anchors := buildAnchorsFrag st.dom parentDom prevChildren nextChildren matchIdx
      match processFragKids env fuel parentDom path prevChildren nextChildren matchIdx anchors keyedMap 0 st with
      | none => none
      | some (newChildren, keyedMapAfter, st) =>
          let st := removeUnusedPrevChildren parentDom prevChildren used st
          let st := removeKeyedLeftovers parentDom prevChildren keyedMapAfter st
          let inst0 : Inst := .mk .fragment none node newChildren inst.key path
          some (.mk .fragment (getFirstDom (some inst0)) node newChildren inst.key path, st)
  termination_by structural fuel

/-- Forward processing loop of `updateFragment`. -/
def processFragKids (env : CompEnv) (fuel : Nat) (parentDom : Nat) (path : String)
    (prevChildren : List (Option Inst)) (allNext : List VNode)
    (matchIdx : List (Option Nat)) (anchors : List (Option Nat))
    (keyedMap : List (String × Nat)) (i : Nat) (st : RState) :
    Option (List (Option Inst) × List (String × Nat) × RState) :=
  match fuel with
  | 0 => none
  | fuel + 1 =>
      match allNext[i]? with
      | none => some ([], keyedMap, st)
      | some childNode =>
          let childKey := childNode.key
          let childPath := createChildPath path childKey i (some childNode.type) allNext
          let childInstance : Option Inst :=
            match matchIdx[i]? with
            | some (some j) => prevAt prevChildren j
            | _ => none
          let keyedMap :=
            match childInstance, childKey with
            | some _, some k => mapDelete keyedMap k
            | _, _ => keyedMap
          let anchor := (anchors[i]?).getD none
          match reconcile env fuel parentDom childInstance (some childNode) childPath anchor st with
          | none => none
          | some (ci, st) =>
              let ci : Option Inst :=
                match ci with
                | some c => if c.path ≠ childPath then some (c.withPath childPath) else some c
                | none => none
              match processFragKids env fuel parentDom path prevChildren allNext matchIdx anchors keyedMap (i + 1) st with
              | none => none
              | some (rest, keyedMapFinal, st) => some (ci :: rest, keyedMapFinal, st)
  termination_by structural fuel

end

/-- The mounted root of the context object: container handle, last root node
and last root instance. -/
structure RootCtx where
  container : Option Nat
  node : Option VNode
  inst : Option Inst

/-- One render pass (`render` of render.ts): nothing happens without a
container and a root node; otherwise the cursors, the active-path stack and
the pending-effects queue are reset, the root is reconciled at path "0", the
root instance is replaced, and garbage collection runs exactly once.  The
effect flush is a separate deferred unit of work (`enqueue(flushEffects)`),
modelled by applying `flushEffects` to the resulting queue afterwards. -/
def render (env : CompEnv) (fuel : Nat) (root : RootCtx) (st : RState) :
    Option (RootCtx × RState) :=
  match root.container, root.node with
  | some container, some node =>
      let st := { st with hooks := { st.hooks with cursor := [], componentStack := [] },
                          effectQueue := [] }
      match reconcile env fuel container root.inst (some node) "0" none st with
      | none => none
      | some (newInstance, st) =>
          let root := { root with inst := newInstance }
          let (evs, hooks) := cleanupUnusedHooks st.hooks
          let st := { st with hooks := hooks, trace := st.trace ++ evs }
          some (root, st)
  | _, _ => some (root, st)

/-- Environment resolving an effect closure id to its behavior when invoked:
either a throw, or normal completion returning the next cleanup closure (the
source stores the returned value when it is a function, else null). -/
abbrev EffEnv := Nat → Except Unit (Option Nat)

/-- The cleanup events contributed by a stored cleanup closure (one
invocation when present). -/
def cleanupEvsOf (cl : Option Nat) : List Ev :=
  match cl with
  | some c => [Ev.cleanupRun c]
  | none => []

/-- The effect flush (`flushEffects` of render.ts): drain the queue in order;
for each entry whose slot currently holds an effect record, run the stored
cleanup (if any), then the effect body, then store the returned cleanup.
There is no per-entry exception isolation: a throwing body returns
immediately with the remaining queue and the flag set, leaving the slot's
stored cleanup unchanged. -/
def flushEffects (env : EffEnv) :
    List (String × Nat) → Hooks → List Ev → List Ev × Hooks × List (String × Nat) × Bool
  | [], h, evs => (evs, h, [], false)
  | (path, cursor) :: rest, h, evs =>
      match mapLookup h.state path with
      | none => flushEffects env rest h evs
      | some hooksArr =>
          match hooksArr[cursor]? with
          | some (.effect deps cl eff) =>
              let evs := evs ++ cleanupEvsOf cl
              let evs := evs ++ [Ev.effectRun eff]
              match env eff with
              | .error _ => (evs, h, rest, true)
              | .ok newCleanup =>
                  let hooksArr := listSet hooksArr cursor (.effect deps newCleanup eff) (.state .undef)
                  flushEffects env rest { h with state := mapSet h.state path hooksArr } evs
          | _ => flushEffects env rest h evs

/-- A fresh engine state over an empty container node (id 0). -/
def st0 : RState :=
  { dom := { nextId := 1, kinds := [(0, .elem "root")], textOf := [], kids := [(0, [])],
             parentOf := [], handlers := [] },
    hooks := { state := [], cursor := [], visited := [], componentStack := [] },
    effectQueue := [], trace := [], renders := 0 }

/-- Component environment with no components (host-only scenarios). -/
def env0 : CompEnv := fun _ _ st => (none, st)

/-- A keyed, childless span element. -/
def spanNode (k : String) : VNode := .mk (.host "span") (some k) [] [] ""

/-- The keyed children of the unchanged-tree scenario. -/
def kids1 : List VNode := [spanNode "a", spanNode "b", spanNode "c"]

/-- A div holding three keyed spans. -/
def rootNode1 : VNode := .mk (.host "div") none [] kids1 ""

/-- First pass: mount the div with its three keyed spans into the container.
DOM ids: div = 1, spans a, b, c = 2, 3, 4. -/
def pass1 : Option (Option Inst × RState) := reconcile env0 10 0 none (some rootNode1) "0" none st0

/-- The root instance the first pass mounts (stated as a literal; the theorem
`pass1_result` below certifies it is exactly the first pass's output). -/
def inst1 : Inst :=
  .mk .host (some 1)
    (.mk (.host "div") none []
      [.mk (.host "span") (some "a") [] [] "",
       .mk (.host "span") (some "b") [] [] "",
       .mk (.host "span") (some "c") [] [] ""] "")
    [some (.mk .host (some 2) (.mk (.host "span") (some "a") [] [] "") [] (some "a") "0.ka"),
     some (.mk .host (some 3) (.mk (.host "span") (some "b") [] [] "") [] (some "b") "0.kb"),
     some (.mk .host (some 4) (.mk (.host "span") (some "c") [] [] "") [] (some "c") "0.kc")]
    none "0"

/-- The operations issued by the first (mount) pass. -/
def mountTrace1 : List Ev :=
  [.createElement 1 "div", .createElement 2 "span", .appendChild 1 2,
   .createElement 3 "span", .appendChild 1 3, .createElement 4 "span", .appendChild 1 4,
   .appendChild 0 1]

/-- The engine state after the first pass (a literal, certified by
`pass1_result`), with the trace cleared so that the second pass's operations
can be observed in isolation. -/
def st1 : RState :=
  { dom := { nextId := 5,
             kinds := [(0, .elem "root"), (1, .elem "div"), (2, .elem "span"),
                       (3, .elem "span"), (4, .elem "span")],
             textOf := [],
             kids := [(0, [1]), (1, [2, 3, 4]), (2, []), (3, []), (4, [])],
             parentOf := [(2, 1), (3, 1), (4, 1), (1, 0)],
             handlers := [] },
    hooks := { state := [], cursor := [], visited := [], componentStack := [] },
    effectQueue := [], trace := [], renders := 0 }

/-- Second pass over the identical tree. -/
def pass2 : Option (Option Inst × RState) :=
  reconcile env0 10 0 (some inst1) (some rootNode1) "0" none st1

/-- The render-target operations issued by the second (unchanged) pass. -/
def secondPassTrace : List Ev :=
  match pass2 with
  | some (_, st) => st.trace
  | _ => []

/-- The per-slot matched previous indices of the second pass's Host update. -/
def matchIdx1 : List (Option Nat) :=
  (matchHostGo inst1.children (buildKeyedMap inst1.children) "0" kids1 2 kids1 0 [] []).1

/-- The anchors computed by the second pass's Host update. -/
def anchors1 : List (Option Nat) := buildAnchorsHost st1.dom 1 inst1.children kids1 matchIdx1

/-- A text node. -/
def textNodeV (v : String) : VNode := .mk .textElem none [] [] v

/-- A div holding a single text child. -/
def rootNodeT : VNode := .mk (.host "div") none [] [textNodeV "hi"] ""

/-- First pass of the text scenario (div = 1, text node = 2). -/
def passT1 : Option (Option Inst × RState) := reconcile env0 7 0 none (some rootNodeT) "0" none st0

/-- Mounted instance of the text scenario. -/
def instT : Inst :=
  match passT1 with
  | some (some i, _) => i
  | _ => .mk .text none rootNodeT [] none ""

/-- Post-first-pass state of the text scenario, trace cleared. -/
def stT : RState :=
  match passT1 with
  | some (_, st) => { st with trace := [] }
  | _ => st0

/-- Operations issued by the second (unchanged) pass of the text scenario. -/
def secondTextTrace : List Ev :=
  match reconcile env0 7 0 (some instT) (some rootNodeT) "0" none stT with
  | some (_, st) => st.trace
  | _ => []

/-- Rendering of a value into text (used by the scenario components). -/
def valueString : Value → String
  | .i n => toString n
  | .s s => s
  | _ => ""

/-- A text node showing a hook value. -/
def valueText (v : Value) : VNode := .mk .textElem none [] [] (valueString v)

/-- Environment with two distinct component functions A (id 0) and B (id 1),
each holding one state slot initialized to 0 and rendering it as text. -/
def envC : CompEnv := fun id _ st =>
  match id with
  | 0 =>
      let (v, st) := useState (.i 0) st
      (some (valueText v), st)
  | 1 =>
      let (v, st) := useState (.i 0) st
      (some (valueText v), st)
  | _ => (none, st)

/-- Component node of type A. -/
def nodeA : VNode := .mk (.component 0 "A") none [] [] ""

/-- Component node of type B (a different function, so a type mismatch). -/
def nodeB : VNode := .mk (.component 1 "B") none [] [] ""

/-- Mount component A at identity path "p". -/
def passA : Option (Option Inst × RState) := reconcile envC 6 0 none (some nodeA) "p" none st0

/-- A's mounted instance. -/
def instA : Inst :=
  match passA with
  | some (some i, _) => i
  | _ => .mk .text none nodeA [] none ""

/-- State after mounting A, after its setter committed 42 to its slot, with
the trace cleared so that the remount pass is observed in isolation. -/
def stB : RState :=
  match passA with
  | some (_, st) => setState "p" 0 (.inl (.i 42)) { st with trace := [] }
  | _ => st0

/-- The remount pass: the node at "p" changed its type from A to B, so the
reconciler unmounts A and mounts B as a (supposedly) fresh identity. -/
def passB : Option (Option Inst × RState) :=
  reconcile envC 6 0 (some instA) (some nodeB) "p" none stB

/-- Mounting B at "p" against an empty store (what a truly fresh identity
observes). -/
def passBfresh : Option (Option Inst × RState) :=
  reconcile envC 6 0 none (some nodeB) "p" none st0

/-- The text value rendered by the single child of the resulting component
instance (the state value its useState observed). -/
def firstChildText (r : Option (Option Inst × RState)) : Option String :=
  match r with
  | some (some inst, _) =>
      match inst.children.headD none with
      | some c => some c.node.nodeValue
      | none => none
  | _ => none

/-- The trace of a reconcile result. -/
def resultTrace (r : Option (Option Inst × RState)) : List Ev :=
  match r with
  | some (_, st) => st.trace
  | _ => []

/-- An unkeyed previous div child mounted at slot 0 (path `0.cdiv_0`). -/
def instDivPrev : Inst := .mk .host (some 10) (.mk (.host "div") none [] [] "") [] none "0.cdiv_0"

/-- An unkeyed previous span child mounted at slot 1 (path `0.cspan_1`). -/
def instSpanPrev : Inst := .mk .host (some 11) (.mk (.host "span") none [] [] "") [] none "0.cspan_1"

/-- The next tree's single unkeyed span child (slot 0, so its expected path
`0.cspan_0` matches no previous child). -/
def spanOnly : VNode := .mk (.host "span") none [] [] ""

/-- Stage one of unkeyed child matching in the spec's words: the first
previous child, not yet consumed, whose own identity path equals the path
this slot would compute. -/
def pathContinuityMatch (prevChildren : List (Option Inst)) (used : List Nat)
    (expectedPath : String) : Option Nat :=
  (prevChildren.enum.find? fun e =>
      match e.2 with
      | some prev => !(used.contains e.1) && prev.path == expectedPath
      | none => false).map (fun e => e.1)

/-- Stage two candidate indices in the spec's words: previous unkeyed
children of the same type not yet consumed, in original order. -/
def sameTypeCandidates (prevChildren : List (Option Inst)) (used : List Nat)
    (t : NType) : List Nat :=
  prevChildren.enum.filterMap fun e =>
    match e.2 with
    | some prev =>
        if !(used.contains e.1) && prev.key.isNone && prev.node.type == t then some e.1
        else none
    | none => none

/-- The value stored in a state slot as the setter reads it. -/
def stateSlotAt (st : RState) (path : String) (cursor : Nat) : Value :=
  slotValue ((((mapLookup st.hooks.state path).getD [])[cursor]?).getD (.state .undef))

/-- The next value a setter call computes (a direct value, or an updater
applied to the previous value). -/
def nextValueOf (next : Value ⊕ (Value → Value)) (cur : Value) : Value :=
  match next with
  | .inl v => v
  | .inr f => f cur

/-- The hook slot currently stored at a path and cursor. -/
def slotAt (h : Hooks) (path : String) (cursor : Nat) : Option HookSlot :=
  match mapLookup h.state path with
  | none => none
  | some arr => arr[cursor]?

/-- The flush events one queue entry contributes, read against a store
snapshot: the stored cleanup (if any) first, then the effect body; entries
whose slot does not currently hold an effect record contribute nothing. -/
def entryFlushEvs (h : Hooks) (e : String × Nat) : List Ev :=
  match slotAt h e.1 e.2 with
  | some (.effect _ cl eff) => cleanupEvsOf cl ++ [Ev.effectRun eff]
  | _ => []

/-- Does this queue entry's effect body complete without throwing (vacuously
true for entries without an effect record)? -/
def entryOk (env : EffEnv) (h : Hooks) (e : String × Nat) : Bool :=
  match slotAt h e.1 e.2 with
  | some (.effect _ _ eff) =>
      match env eff with
      | .ok _ => true
      | .error _ => false
  | _ => true

/-- The cleanup stored after a successful effect run. -/
def okCleanup (r : Except Unit (Option Nat)) : Option Nat :=
  match r with
  | .ok c => c
  | .error _ => none

/-- Effect environment of the flush-order scenario: both effects succeed,
the first returning a cleanup closure. -/
def envW : EffEnv := fun e => if e = 10 then .ok (some 77) else .ok none

/-- Store of the flush-order scenario: two paths, each with one effect slot;
the slot at "a" has a stored cleanup from a previous flush. -/
def hW : Hooks :=
  { state := [("a", [.effect none (some 5) 10]), ("b", [.effect none none 20])],
    cursor := [], visited := [], componentStack := [] }

/-- Queue of the flush-order scenario, in enqueue order. -/
def qW : List (String × Nat) := [("a", 0), ("b", 0)]

/-- Effect environment of the throwing scenario: effect 10 throws, effect 20
would succeed. -/
def envE : EffEnv := fun e => if e = 10 then .error () else .ok none

/-- Store of the throwing scenario: effect 10 queued before effect 20. -/
def hE : Hooks :=
  { state := [("a", [.effect none none 10]), ("b", [.effect none none 20])],
    cursor := [], visited := [], componentStack := [] }

/-- Store of the garbage-collection witness: path "q" holds a state slot and
an effect slot with a stored cleanup, and was not visited this pass. -/
def hG : Hooks :=
  { state := [("q", [.state (.i 7), .effect none (some 9) 3])],
    cursor := [("q", 2)], visited := ["r"], componentStack := [] }

/-- The slot sequence stored at "q" in the garbage-collection witness. -/
def arrG : List HookSlot := [.state (.i 7), .effect none (some 9) 3]

/-- State of the setter witness: one slot at path "p" holding 1. -/
def stW : RState :=
  { st0 with hooks := { st0.hooks with state := [("p", [.state (.i 1)])] } }

theorem mapLookup_mapSet {κ α : Type} [DecidableEq κ] (m : List (κ × α)) (k k' : κ) (v : α) :
    mapLookup (mapSet m k v) k' = if k = k' then some v else mapLookup m k' := by
  induction m with
  | nil => simp [mapSet, mapLookup]
  | cons e rest ih =>
      obtain ⟨q, w⟩ := e
      by_cases hq : q = k
      · subst hq
        simp only [mapSet, if_pos rfl]
        by_cases hk : q = k' <;> simp [mapLookup, hk]
      · simp only [mapSet, if_neg hq]
        by_cases hk2 : q = k'
        · have hkk : ¬ k = k' := fun h => hq (by rw [h, hk2])
          simp [mapLookup, hk2, hkk]
        · simp [mapLookup, hk2, ih]

theorem mapLookup_mapDelete {κ α : Type} [DecidableEq κ] (m : List (κ × α)) (k k' : κ) :
    mapLookup (mapDelete m k) k' = if k' = k then none else mapLookup m k' := by
  induction m with
  | nil => simp [mapDelete, mapLookup]
  | cons e rest ih =>
      obtain ⟨q, w⟩ := e
      by_cases hq : q = k
      · subst hq
        have hd : mapDelete ((q, w) :: rest) q = mapDelete rest q := by simp [mapDelete]
        rw [hd, ih]
        by_cases hk : k' = q
        · simp [hk]
        · have hqk : ¬ q = k' := fun h => hk h.symm
          simp [mapLookup, hk, hqk]
      · simp only [mapDelete, if_neg hq]
        by_cases hk2 : q = k'
        · have hkk : ¬ k' = k := fun h => hq (by rw [hk2, h])
          simp [mapLookup, hk2, hkk]
        · simp [mapLookup, hk2, ih]

theorem mapLookup_mem {κ α : Type} [DecidableEq κ] (m : List (κ × α)) (k : κ) (v : α)
    (h : mapLookup m k = some v) : (k, v) ∈ m := by
  induction m with
  | nil => simp [mapLookup] at h
  | cons e rest ih =>
      obtain ⟨q, w⟩ := e
      by_cases hq : q = k
      · subst hq
        simp [mapLookup] at h
        simp [h]
      · simp [mapLookup, hq] at h
        simp [ih h]

theorem listSet_get_self {α : Type} : ∀ (l : List α) (i : Nat) (v pad : α),
    (listSet l i v pad)[i]? = some v
  | [], 0, v, pad => by simp [listSet]
  | [], n + 1, v, pad => by
      simpa [listSet] using listSet_get_self ([] : List α) n v pad
  | a :: rest, 0, v, pad => by simp [listSet]
  | a :: rest, n + 1, v, pad => by
      simpa [listSet] using listSet_get_self rest n v pad
  termination_by l i => i

theorem listSet_get_ne {α : Type} : ∀ (l : List α) (i j : Nat) (v pad : α),
    i < l.length → j ≠ i → (listSet l i v pad)[j]? = l[j]?
  | [], i, j, v, pad, hi, hj => absurd hi (by simp)
  | x :: rest, 0, j, v, pad, _, hj => by
      cases j with
      | zero => exact absurd rfl hj
      | succ m => simp [listSet]
  | x :: rest, n + 1, j, v, pad, hi, hj => by
      cases j with
      | zero => simp [listSet]
      | succ m =>
          have hmn : m ≠ n := fun h => hj (by omega)
          simpa [listSet] using listSet_get_ne rest n m v pad (by simpa using hi) hmn

theorem listSet_length {α : Type} : ∀ (l : List α) (i : Nat) (v pad : α),
    i < l.length → (listSet l i v pad).length = l.length
  | [], i, v, pad, hi => absurd hi (by simp)
  | a :: rest, 0, v, pad, hi => by simp [listSet]
  | x :: rest, n + 1, v, pad, hi => by
      simpa [listSet] using listSet_length rest n v pad (by simpa using hi)

/-- The literal `inst1`/`st1` are exactly what the first pass produces: its
result instance is structurally equal to `inst1` and its resulting state is
`st1` with the mount trace attached. -/
theorem pass1_result :
    (match pass1 with
     | some (some i, st) => instBeq i inst1 && st == { st1 with trace := mountTrace1 }
     | _ => false) = true := by decide

/-- C10: The identity path of a keyed child depends only on the parent path
and the key, never on the child's position index or node type:
`createChildPath` yields `parentPath ++ ".k" ++ key` for every index, node
type and sibling list, so reordering keyed siblings never changes any keyed
child's identity path. -/
theorem createChildPath_keyed_ignores_index (parentPath k : String) (i j : Nat)
    (t1 t2 : Option NType) (s1 s2 : List VNode) :
    createChildPath parentPath (some k) i t1 s1 = parentPath ++ ".k" ++ k ∧
    createChildPath parentPath (some k) i t1 s1 = createChildPath parentPath (some k) j t2 s2 := by
  constructor <;> rfl

/-- C5: Calling a state setter with a next value (direct, or computed by an
updater over the previous value) that is `Object.is`-identical to the stored
value leaves the entire engine state unchanged — no value committed and no
render scheduled — while a non-identical value is committed to the slot and
exactly one render is requested.  The identity comparison `objectIs` is the
only equality check in `setState`; no deep or shallow comparison occurs. -/
theorem setState_identity_semantics (st : RState) (path : String) (cursor : Nat)
    (next : Value ⊕ (Value → Value)) :
    (objectIs (stateSlotAt st path cursor) (nextValueOf next (stateSlotAt st path cursor)) = true →
        setState path cursor next st = st) ∧
    (objectIs (stateSlotAt st path cursor) (nextValueOf next (stateSlotAt st path cursor)) = false →
        stateSlotAt (setState path cursor next st) path cursor =
            nextValueOf next (stateSlotAt st path cursor) ∧
        (setState path cursor next st).renders = st.renders + 1) := by
  constructor
  · intro h
    simp only [stateSlotAt, nextValueOf] at h
    simp only [setState]
    simp [h]
  · intro h
    simp only [stateSlotAt, nextValueOf] at h
    simp only [setState]
    simp only [h, Bool.false_eq_true, if_false]
    constructor
    · simp [stateSlotAt, nextValueOf, enqueueRender, mapLookup_mapSet, listSet_get_self, slotValue]
    · rfl

/-- Witness for C5 at a concrete slot holding 1: setting 1 again is a
complete no-op, while setting 2 commits and requests one render. -/
theorem setState_identity_semantics_witness :
    setState "p" 0 (Sum.inl (Value.i 1)) stW = stW ∧
    (stateSlotAt (setState "p" 0 (Sum.inl (Value.i 2)) stW) "p" 0 =
        nextValueOf (Sum.inl (Value.i 2)) (stateSlotAt stW "p" 0) ∧
      (setState "p" 0 (Sum.inl (Value.i 2)) stW).renders = stW.renders + 1) :=
  ⟨(setState_identity_semantics stW "p" 0 (Sum.inl (Value.i 1))).1 (by decide),
   (setState_identity_semantics stW "p" 0 (Sum.inl (Value.i 2))).2 (by decide)⟩

/-- C2 (code bug): reconciling an unchanged tree twice is claimed to perform
zero render-target mutations on the second pass, but it does not on the
code: the second pass over the mounted div with text child "hi" (div id 1,
text id 2) rewrites the text's `nodeValue` (updateText assigns it without
comparing), and the second pass over the mounted div with three keyed spans
issues a redundant `insertBefore` for the middle child. -/
theorem unchanged_second_pass_issues_mutation :
    secondTextTrace = [Ev.setText 2 "hi"] ∧
    secondPassTrace = [Ev.insertBefore 1 3 4] ∧
    (secondTextTrace.filter Ev.isDomMutation).length = 1 ∧
    (secondPassTrace.filter Ev.isDomMutation).length = 1 := by decide

/-- C3 (code bug): after mounting keyed children a, b, c (DOM ids 2, 3, 4
under div 1) and reconciling the identical list, slot 1's computed anchor is
c's node (4) and b's node (3) already has exactly that next sibling — yet
the second pass issues `insertBefore` for b, because `needsMove` also
triggers on `currentPrevSibling !== null` (b is not the first child); the
relocation block in isolation issues the same operation.  The claim that a
node whose next-sibling equals its anchor is left untouched fails. -/
theorem keyed_move_issued_despite_anchor_match :
    (anchors1[1]?).getD none = some 4 ∧
    nextSiblingOf st1.dom 3 = some 4 ∧
    Ev.insertBefore 1 3 4 ∈ secondPassTrace ∧
    (keyedMoveStep 1 1 3 (some 4) st1).trace = [Ev.insertBefore 1 3 4] := by decide

/-- C1 (code bug): a type change at an unchanged identity path remounts the
node but the replacement component observes the replaced component's hook
state.  After mounting component A at path "p" and committing 42 to its
slot, remounting with component B (a different function) unmounts A's DOM
and mounts B fresh — yet B's first `useState` call returns 42, not its
initial value 0 (which a genuinely fresh identity, mounted against an empty
store, does observe). -/
theorem remount_observes_leftover_state :
    firstChildText passB = some "42" ∧
    resultTrace passB = [Ev.removeChild 0 1, Ev.createText 2 "42", Ev.appendChild 0 2] ∧
    firstChildText passBfresh = some "0" := by decide

/-- C4 counterexample: an unkeyed span child at new slot 0 whose previous
instance sat at slot 1 (identity paths `0.cdiv_0`, `0.cspan_1`) has no
identity-path match; the Host matcher falls back to the same-type unkeyed
candidate and matches previous index 1, while the Fragment matcher returns
no match — the two updates do not use the same two-stage rule. -/
theorem fragment_update_no_type_fallback :
    matchFragChild [some instDivPrev, some instSpanPrev] [] [] "0" [spanOnly] 0 spanOnly = none ∧
    matchHostChild [some instDivPrev, some instSpanPrev] [] [] "0" [spanOnly] 0 0 spanOnly = some 1 := by
  decide

/-- C8 (code bug): `flushEffects` has no per-entry isolation.  With effect 10
(path "a") queued before effect 20 (path "b") and effect 10 throwing, the
flush records only the attempt of effect 10, never runs effect 20, and
returns with the queue still holding the second entry. -/
theorem effect_throw_aborts_flush :
    (flushEffects envE [("a", 0), ("b", 0)] hE []).1 = [Ev.effectRun 10] ∧
    Ev.effectRun 20 ∉ (flushEffects envE [("a", 0), ("b", 0)] hE []).1 ∧
    (flushEffects envE [("a", 0), ("b", 0)] hE []).2.2 = ([("b", 0)], true) := by decide

/-- C9: `reconcile` returns null exactly when the next node is null: a null
next node yields a null result after unmounting, and a non-null next node
yields a non-null instance for every combination of previous instance and
node kind (whenever the fuel-bounded evaluation returns at all). -/
theorem reconcile_null_result_iff_null_node (env : CompEnv) (fuel : Nat) (parentDom : Nat)
    (inst? : Option Inst) (node? : Option VNode) (path : String) (anchor : Option Nat)
    (st : RState) :
    Option.all (fun r => r.1.isSome == node?.isSome)
      (reconcile env fuel parentDom inst? node? path anchor st) = true := by
  cases fuel with
  | zero => rfl
  | succ f =>
      cases node? with
      | none => simp [reconcile]
      | some node =>
          cases inst? with
          | none =>
              simp only [reconcile]
              cases h : mountNode env f parentDom node path anchor st with
              | none => rfl
              | some p => simp
          | some inst =>
              simp only [reconcile]
              split
              · cases h : mountNode env f parentDom node path anchor
                    (removeInstance parentDom (some inst) st) with
                | none => rfl
                | some p => simp
              · split
                · rename_i hupd
                  split at hupd <;> simp_all
                · simp

theorem gcGo_evs_mono : ∀ (entries : List (String × List HookSlot)) (visited : List String)
    (h : Hooks) (evs : List Ev) (ev : Ev), ev ∈ evs → ev ∈ (gcGo entries visited h evs).1 := by
  intro entries
  induction entries with
  | nil => intro visited h evs ev hev; simpa [gcGo] using hev
  | cons e rest ih =>
      intro visited h evs ev hev
      obtain ⟨q, arr⟩ := e
      simp only [gcGo]
      split
      · exact ih _ _ _ _ hev
      · exact ih _ _ _ _ (List.mem_append_left _ hev)

theorem gcGo_state_none : ∀ (entries : List (String × List HookSlot)) (visited : List String)
    (h : Hooks) (evs : List Ev) (p : String), mapLookup h.state p = none →
    mapLookup (gcGo entries visited h evs).2.state p = none := by
  intro entries
  induction entries with
  | nil => intro visited h evs p hp; simpa [gcGo] using hp
  | cons e rest ih =>
      intro visited h evs p hp
      obtain ⟨q, arr⟩ := e
      simp only [gcGo]
      split
      · exact ih _ _ _ _ hp
      · refine ih _ _ _ _ ?_
        rw [mapLookup_mapDelete]
        split
        · rfl
        · exact hp

theorem gcGo_cursor_none : ∀ (entries : List (String × List HookSlot)) (visited : List String)
    (h : Hooks) (evs : List Ev) (p : String), mapLookup h.cursor p = none →
    mapLookup (gcGo entries visited h evs).2.cursor p = none := by
  intro entries
  induction entries with
  | nil => intro visited h evs p hp; simpa [gcGo] using hp
  | cons e rest ih =>
      intro visited h evs p hp
      obtain ⟨q, arr⟩ := e
      simp only [gcGo]
      split
      · exact ih _ _ _ _ hp
      · refine ih _ _ _ _ ?_
        rw [mapLookup_mapDelete]
        split
        · rfl
        · exact hp

theorem gcGo_main : ∀ (entries : List (String × List HookSlot)) (visited : List String)
    (h : Hooks) (evs : List Ev) (p : String) (arr : List HookSlot),
    (p, arr) ∈ entries → p ∉ visited →
    mapLookup (gcGo entries visited h evs).2.state p = none ∧
    mapLookup (gcGo entries visited h evs).2.cursor p = none ∧
    ∀ ev ∈ effectCleanups arr, ev ∈ (gcGo entries visited h evs).1 := by
  intro entries
  induction entries with
  | nil => intro visited h evs p arr hmem; simp at hmem
  | cons e rest ih =>
      intro visited h evs p arr hmem hnv
      obtain ⟨q, brr⟩ := e
      rcases List.mem_cons.mp hmem with hhead | htail
      · have h1 : p = q := congrArg Prod.fst hhead
        have h2 : arr = brr := congrArg Prod.snd hhead
        subst h1
        subst h2
        simp only [gcGo, if_neg hnv]
        refine ⟨?_, ?_, ?_⟩
        · refine gcGo_state_none _ _ _ _ _ ?_
          rw [mapLookup_mapDelete]
          simp
        · refine gcGo_cursor_none _ _ _ _ _ ?_
          rw [mapLookup_mapDelete]
          simp
        · intro ev hev
          exact gcGo_evs_mono _ _ _ _ _ (List.mem_append_right _ hev)
      · simp only [gcGo]
        split
        · exact ih _ _ _ _ _ htail hnv
        · exact ih _ _ _ _ _ htail hnv

theorem render_applies_gc (env : CompEnv) (fuel : Nat) (root : RootCtx) (st : RState)
    (res : RootCtx × RState) (c : Nat) (n : VNode)
    (hc : root.container = some c) (hn : root.node = some n)
    (hr : render env fuel root st = some res) :
    ∃ mid : Hooks, res.2.hooks = (cleanupUnusedHooks mid).2 := by
  simp only [render, hc, hn] at hr
  split at hr
  · exact absurd hr (by simp)
  · rename_i ni st2 heq
    simp only [Option.some.injEq] at hr
    subst hr
    exact ⟨st2.hooks, rfl⟩

/-- C6: Garbage collection runs once per completed render pass, after all
components have been visited: for every path present in the hook store but
absent from the reachability set, every effect slot's stored cleanup at that
path is invoked and the path's slot sequence and cursor are deleted
entirely, the reachability set is cleared, and `render` always ends a
successful pass by applying exactly this collection to the post-pass store
(so a later mount at the path starts as a brand-new identity). -/
theorem gc_purges_unreachable_paths (h : Hooks) (path : String) (arr : List HookSlot)
    (hmem : mapLookup h.state path = some arr) (hnv : path ∉ h.visited) :
    mapLookup (cleanupUnusedHooks h).2.state path = none ∧
    mapLookup (cleanupUnusedHooks h).2.cursor path = none ∧
    (∀ ev ∈ effectCleanups arr, ev ∈ (cleanupUnusedHooks h).1) ∧
    (cleanupUnusedHooks h).2.visited = [] ∧
    (∀ (env : CompEnv) (fuel : Nat) (root : RootCtx) (st : RState) (res : RootCtx × RState)
        (c : Nat) (n : VNode), root.container = some c → root.node = some n →
        render env fuel root st = some res →
        ∃ mid : Hooks, res.2.hooks = (cleanupUnusedHooks mid).2) := by
  have hm := mapLookup_mem _ _ _ hmem
  have main := gcGo_main h.state h.visited h [] path arr hm hnv
  rcases hg : gcGo h.state h.visited h [] with ⟨evs, h2⟩
  rw [hg] at main
  refine ⟨?_, ?_, ?_, ?_, ?_⟩
  · simpa [cleanupUnusedHooks, hg] using main.1
  · simpa [cleanupUnusedHooks, hg] using main.2.1
  · simpa [cleanupUnusedHooks, hg] using main.2.2
  · simp [cleanupUnusedHooks, hg]
  · intro env fuel root st res c n hc hn hr
    exact render_applies_gc env fuel root st res c n hc hn hr

/-- Witness for C6: the store `hG` holds state and an effect slot with
cleanup 9 at the unvisited path "q"; collection deletes the slot sequence,
deletes the cursor, and invokes the stored cleanup. -/
theorem gc_purges_unreachable_paths_witness :
    mapLookup (cleanupUnusedHooks hG).2.state "q" = none ∧
    mapLookup (cleanupUnusedHooks hG).2.cursor "q" = none :=
  ⟨(gc_purges_unreachable_paths hG "q" arrG (by decide) (by decide)).1,
   (gc_purges_unreachable_paths hG "q" arrG (by decide) (by decide)).2.1⟩

theorem slotAt_set_self (h : Hooks) (p : String) (c : Nat) (arr : List HookSlot)
    (slot pad : HookSlot) (hlk : mapLookup h.state p = some arr) :
    slotAt { h with state := mapSet h.state p (listSet arr c slot pad) } p c = some slot := by
  simp [slotAt, mapLookup_mapSet, listSet_get_self]

theorem slotAt_set_ne (h : Hooks) (p : String) (c : Nat) (arr : List HookSlot)
    (slot pad : HookSlot) (hlk : mapLookup h.state p = some arr) (hc : c < arr.length)
    (q : String) (d : Nat) (hne : ¬ (q = p ∧ d = c)) :
    slotAt { h with state := mapSet h.state p (listSet arr c slot pad) } q d = slotAt h q d := by
  by_cases hq : q = p
  · subst hq
    have hd : d ≠ c := fun hh => hne ⟨rfl, hh⟩
    simp [slotAt, mapLookup_mapSet, hlk, listSet_get_ne arr c d slot pad hc hd]
  · have hpq : ¬ p = q := fun hh => hq hh.symm
    simp [slotAt, mapLookup_mapSet, hpq]

theorem flushGo_spec (env : EffEnv) :
    ∀ (queue : List (String × Nat)) (h0 h1 : Hooks) (evs : List Ev),
      queue.Nodup →
      (∀ e ∈ queue, slotAt h1 e.1 e.2 = slotAt h0 e.1 e.2) →
      (∀ e ∈ queue, entryOk env h0 e = true) →
      (flushEffects env queue h1 evs).1 = evs ++ queue.flatMap (entryFlushEvs h0) ∧
      (flushEffects env queue h1 evs).2.2.2 = false ∧
      (∀ q d, (q, d) ∉ queue → slotAt (flushEffects env queue h1 evs).2.1 q d = slotAt h1 q d) ∧
      (∀ e ∈ queue, ∀ deps cl eff, slotAt h0 e.1 e.2 = some (.effect deps cl eff) →
        slotAt (flushEffects env queue h1 evs).2.1 e.1 e.2 =
          some (.effect deps (okCleanup (env eff)) eff)) := by
  intro queue
  induction queue with
  | nil =>
      intro h0 h1 evs _ _ _
      exact ⟨by simp [flushEffects], rfl, fun q d _ => rfl, by simp⟩
  | cons e rest ih =>
      intro h0 h1 evs hnd hagree hok
      obtain ⟨p, c⟩ := e
      have hnd' : rest.Nodup := (List.nodup_cons.mp hnd).2
      have hpc_not : (p, c) ∉ rest := (List.nodup_cons.mp hnd).1
      have hagree_head : slotAt h1 p c = slotAt h0 p c := hagree _ (List.mem_cons_self _ _)
      have hok_head : entryOk env h0 (p, c) = true := hok _ (List.mem_cons_self _ _)
      have hagree_rest : ∀ e ∈ rest, slotAt h1 e.1 e.2 = slotAt h0 e.1 e.2 :=
        fun e he => hagree e (List.mem_cons_of_mem _ he)
      have hok_rest : ∀ e ∈ rest, entryOk env h0 e = true :=
        fun e he => hok e (List.mem_cons_of_mem _ he)
      cases hlk : mapLookup h1.state p with
      | none =>
          have hslot0 : slotAt h0 p c = none := by
            rw [← hagree_head]; simp [slotAt, hlk]
          have hflk : entryFlushEvs h0 (p, c) = [] := by simp [entryFlushEvs, hslot0]
          obtain ⟨t1, t2, t3, t4⟩ := ih h0 h1 evs hnd' hagree_rest hok_rest
          simp only [flushEffects, hlk]
          refine ⟨?_, t2, ?_, ?_⟩
          · rw [t1, List.flatMap_cons, hflk]
            simp
          · intro q d hqd
            exact t3 q d (fun hmem => hqd (List.mem_cons_of_mem _ hmem))
          · intro e he deps cl eff hse
            rcases List.mem_cons.mp he with rfl | hr
            · rw [hslot0] at hse
              exact absurd hse (by simp)
            · exact t4 e hr deps cl eff hse
      | some arr =>
          cases hslot : arr[c]? with
          | none =>
              have hslot0 : slotAt h0 p c = none := by
                rw [← hagree_head]; simp [slotAt, hlk, hslot]
              have hflk : entryFlushEvs h0 (p, c) = [] := by simp [entryFlushEvs, hslot0]
              obtain ⟨t1, t2, t3, t4⟩ := ih h0 h1 evs hnd' hagree_rest hok_rest
              simp only [flushEffects, hlk, hslot]
              refine ⟨?_, t2, ?_, ?_⟩
              · rw [t1, List.flatMap_cons, hflk]
                simp
              · intro q d hqd
                exact t3 q d (fun hmem => hqd (List.mem_cons_of_mem _ hmem))
              · intro e he deps cl eff hse
                rcases List.mem_cons.mp he with rfl | hr
                · rw [hslot0] at hse
                  exact absurd hse (by simp)
                · exact t4 e hr deps cl eff hse
          | some slot =>
              cases slot with
              | state v =>
                  have hslot0 : slotAt h0 p c = some (.state v) := by
                    rw [← hagree_head]; simp [slotAt, hlk, hslot]
                  have hflk : entryFlushEvs h0 (p, c) = [] := by simp [entryFlushEvs, hslot0]
                  obtain ⟨t1, t2, t3, t4⟩ := ih h0 h1 evs hnd' hagree_rest hok_rest
                  simp only [flushEffects, hlk, hslot]
                  refine ⟨?_, t2, ?_, ?_⟩
                  · rw [t1, List.flatMap_cons, hflk]
                    simp
                  · intro q d hqd
                    exact t3 q d (fun hmem => hqd (List.mem_cons_of_mem _ hmem))
                  · intro e he deps cl eff hse
                    rcases List.mem_cons.mp he with rfl | hr
                    · rw [hslot0] at hse
                      simp at hse
                    · exact t4 e hr deps cl eff hse
              | effect deps cl eff =>
                  have hs1 : slotAt h1 p c = some (.effect deps cl eff) := by
                    simp [slotAt, hlk, hslot]
                  have hs0 : slotAt h0 p c = some (.effect deps cl eff) := by
                    rw [← hagree_head]; exact hs1
                  have hcl : c < arr.length := by
                    rcases List.getElem?_eq_some.mp hslot with ⟨hh, _⟩
                    exact hh
                  obtain ⟨ncl, henv⟩ : ∃ ncl, env eff = .ok ncl := by
                    have hk := hok_head
                    simp only [entryOk, hs0] at hk
                    cases henv : env eff with
                    | error u => rw [henv] at hk; simp at hk
                    | ok ncl => exact ⟨ncl, rfl⟩
                  have hflk : entryFlushEvs h0 (p, c) = cleanupEvsOf cl ++ [Ev.effectRun eff] := by
                    simp [entryFlushEvs, hs0]
                  have hagree2 : ∀ e ∈ rest,
                      slotAt { h1 with state := mapSet h1.state p (listSet arr c (.effect deps ncl eff) (.state .undef)) } e.1 e.2 =
                        slotAt h0 e.1 e.2 := by
                    intro e he
                    have hne : ¬ (e.1 = p ∧ e.2 = c) := by
                      rintro ⟨h1e, h2e⟩
                      apply hpc_not
                      have heq : e = (p, c) := by
                        cases e
                        simp_all
                      exact heq ▸ he
                    rw [slotAt_set_ne h1 p c arr _ _ hlk hcl e.1 e.2 hne]
                    exact hagree_rest e he
                  obtain ⟨t1, t2, t3, t4⟩ := ih h0
                    { h1 with state := mapSet h1.state p (listSet arr c (.effect deps ncl eff) (.state .undef)) }
                    (evs ++ cleanupEvsOf cl ++ [Ev.effectRun eff])
                    hnd' hagree2 hok_rest
                  simp only [flushEffects, hlk, hslot, henv]
                  refine ⟨?_, t2, ?_, ?_⟩
                  · rw [t1, List.flatMap_cons, hflk]
                    simp
                  · intro q d hqd
                    have hne : ¬ (q = p ∧ d = c) := by
                      rintro ⟨rfl, rfl⟩
                      exact hqd (List.mem_cons_self _ _)
                    rw [t3 q d (fun hmem => hqd (List.mem_cons_of_mem _ hmem))]
                    exact slotAt_set_ne h1 p c arr _ _ hlk hcl q d hne
                  · intro e he deps' cl' eff' hse
                    rcases List.mem_cons.mp he with rfl | hr
                    · rw [hs0] at hse
                      have hinj : deps' = deps ∧ cl' = cl ∧ eff' = eff := by
                        cases hse
                        exact ⟨rfl, rfl, rfl⟩
                      obtain ⟨rfl, rfl, rfl⟩ := hinj
                      rw [t3 p c hpc_not]
                      rw [slotAt_set_self h1 p c arr _ _ hlk]
                      rw [henv]
                      rfl
                    · exact t4 e hr deps' cl' eff' hse

/-- C7: When no queued effect body throws and the queue holds distinct
entries, the flush drains the pending-effects queue in enqueue order — the
event trace is exactly the concatenation, entry by entry, of the stored
cleanup (run first, when present) followed by the effect body — and for every
entry whose slot holds an effect record, the cleanup the body returns (or
none) is stored in the slot for the next flush. -/
theorem flushEffects_order_and_storage (env : EffEnv) (queue : List (String × Nat)) (h : Hooks)
    (hnd : queue.Nodup) (hok : ∀ e ∈ queue, entryOk env h e = true) :
    (flushEffects env queue h []).1 = queue.flatMap (entryFlushEvs h) ∧
    (flushEffects env queue h []).2.2.2 = false ∧
    (∀ e ∈ queue, ∀ deps cl eff, slotAt h e.1 e.2 = some (.effect deps cl eff) →
      slotAt (flushEffects env queue h []).2.1 e.1 e.2 =
        some (.effect deps (okCleanup (env eff)) eff)) := by
  obtain ⟨t1, t2, _, t4⟩ := flushGo_spec env queue h h [] hnd (fun _ _ => rfl) hok
  exact ⟨by simpa using t1, t2, t4⟩

/-- Witness for C7: two queued effects at distinct paths; the flush trace is
cleanup 5 (stored at "a"), then effect 10, then effect 20, in enqueue
order. -/
theorem flushEffects_order_and_storage_witness :
    (flushEffects envW qW hW []).1 = qW.flatMap (entryFlushEvs hW) ∧
    (flushEffects envW qW hW []).1 =
      [Ev.cleanupRun 5, Ev.effectRun 10, Ev.effectRun 20] :=
  ⟨(flushEffects_order_and_storage envW qW hW (by decide) (by decide)).1, by decide⟩

theorem findByPathMatch_enumFrom : ∀ (prev : List (Option Inst)) (j : Nat) (used : List Nat)
    (p : String),
    findByPathMatch prev j used p =
      ((List.enumFrom j prev).find? fun e =>
        match e.2 with
        | some pr => !(used.contains e.1) && pr.path == p
        | none => false).map (fun e => e.1) := by
  intro prev
  induction prev with
  | nil => intro j used p; rfl
  | cons c rest ih =>
      intro j used p
      rw [List.enumFrom_cons]
      cases c with
      | none =>
          rw [List.find?_cons_of_neg _ (by simp)]
          simpa [findByPathMatch] using ih (j + 1) used p
      | some pr =>
          by_cases hu : j ∈ used
          · rw [List.find?_cons_of_neg _ (by simp [hu])]
            simpa [findByPathMatch, hu] using ih (j + 1) used p
          · by_cases hp : pr.path = p
            · rw [List.find?_cons_of_pos _ (by simp [hu, hp])]
              simp [findByPathMatch, hu, hp]
            · rw [List.find?_cons_of_neg _ (by simp [hu, hp])]
              simpa [findByPathMatch, hu, hp] using ih (j + 1) used p

theorem findByPathMatch_spec (prev : List (Option Inst)) (used : List Nat) (p : String) :
    findByPathMatch prev 0 used p = pathContinuityMatch prev used p := by
  rw [findByPathMatch_enumFrom]
  rfl

theorem hostCandidates_map_fst : ∀ (prev : List (Option Inst)) (j : Nat) (used : List Nat)
    (t : NType),
    (hostCandidates prev j used t).map Prod.fst =
      (List.enumFrom j prev).filterMap fun e =>
        match e.2 with
        | some pr =>
            if !(used.contains e.1) && pr.key.isNone && pr.node.type == t then some e.1
            else none
        | none => none := by
  intro prev
  induction prev with
  | nil => intro j used t; rfl
  | cons c rest ih =>
      intro j used t
      rw [List.enumFrom_cons]
      cases c with
      | none =>
          simp only [List.filterMap_cons]
          simpa [hostCandidates] using ih (j + 1) used t
      | some pr =>
          by_cases hu : j ∈ used
          · simp only [List.filterMap_cons]
            simpa [hostCandidates, hu] using ih (j + 1) used t
          · cases hkey : pr.key with
            | some s =>
                simp only [List.filterMap_cons]
                simpa [hostCandidates, hu, hkey] using ih (j + 1) used t
            | none =>
                by_cases ht : pr.node.type = t
                · have hcond : used.contains j = false ∧ pr.key = none ∧ pr.node.type = t :=
                    ⟨by simp [hu], hkey, ht⟩
                  simp only [List.filterMap_cons]
                  simp only [hostCandidates, if_pos hcond]
                  simp [hu, hkey, ht, ih (j + 1) used t]
                · simp only [List.filterMap_cons]
                  simpa [hostCandidates, hu, hkey, ht] using ih (j + 1) used t

theorem hostCandidates_fst_spec (prev : List (Option Inst)) (used : List Nat) (t : NType) :
    (hostCandidates prev 0 used t).map Prod.fst = sameTypeCandidates prev used t := by
  rw [hostCandidates_map_fst]
  rfl

theorem getLast?_cons_getD {α : Type} : ∀ (a : α) (l : List α),
    (a :: l).getLast? = some ((l.getLast?).getD a)
  | _, [] => rfl
  | a, b :: t => by
      rw [List.getLast?_cons_cons, getLast?_cons_getD b t]
      rfl

theorem lastScanGo_getLast : ∀ (prev : List (Option Inst)) (j : Nat) (used : List Nat)
    (t : NType),
    lastScanGo prev j used t = ((hostCandidates prev j used t).getLast?).map Prod.fst := by
  intro prev
  induction prev with
  | nil => intro j used t; rfl
  | cons c rest ih =>
      intro j used t
      cases c with
      | none =>
          simp only [lastScanGo, hostCandidates]
          rw [ih (j + 1) used t]
          cases hh : (hostCandidates rest (j + 1) used t).getLast? <;> simp
      | some pr =>
          by_cases hcond : used.contains j = false ∧ pr.key = none ∧ pr.node.type = t
          · simp only [lastScanGo, hostCandidates, if_pos hcond]
            rw [ih (j + 1) used t]
            cases hrc : hostCandidates rest (j + 1) used t with
            | nil => simp
            | cons hd tl =>
                rw [List.getLast?_cons_cons, getLast?_cons_getD hd tl]
                simp
          · simp only [lastScanGo, hostCandidates, if_neg hcond]
            rw [ih (j + 1) used t]
            cases hh : (hostCandidates rest (j + 1) used t).getLast? <;> simp [hcond]

theorem nearestFold_spec (i : Nat) : ∀ (rest : List (Nat × Inst)) (best : Nat × Inst),
    (rest.foldl (fun b c => if natDist c.1 i < natDist b.1 i then c else b) best) ∈ best :: rest ∧
    ∀ x ∈ best :: rest,
      natDist (rest.foldl (fun b c => if natDist c.1 i < natDist b.1 i then c else b) best).1 i ≤
        natDist x.1 i := by
  intro rest
  induction rest with
  | nil =>
      intro best
      refine ⟨List.mem_cons_self _ _, ?_⟩
      intro x hx
      rcases List.mem_cons.mp hx with rfl | hx
      · exact le_refl _
      · simp at hx
  | cons c t ih =>
      intro best
      obtain ⟨hmem, hmin⟩ := ih (if natDist c.1 i < natDist best.1 i then c else best)
      have hb1 : natDist (if natDist c.1 i < natDist best.1 i then c else best).1 i ≤
          natDist best.1 i := by
        split
        · exact le_of_lt (by assumption)
        · exact le_refl _
      have hb2 : natDist (if natDist c.1 i < natDist best.1 i then c else best).1 i ≤
          natDist c.1 i := by
        split
        · exact le_refl _
        · exact le_of_not_lt (by assumption)
      have hfold : (c :: t).foldl (fun b x => if natDist x.1 i < natDist b.1 i then x else b) best =
          t.foldl (fun b x => if natDist x.1 i < natDist b.1 i then x else b)
            (if natDist c.1 i < natDist best.1 i then c else best) := by
        rw [List.foldl_cons]
      rw [hfold]
      constructor
      · rcases List.mem_cons.mp hmem with heq | hmemt
        · rw [heq]
          split
          · exact List.mem_cons_of_mem _ (List.mem_cons_self _ _)
          · exact List.mem_cons_self _ _
        · exact List.mem_cons_of_mem _ (List.mem_cons_of_mem _ hmemt)
      · intro x hx
        have hle : natDist (t.foldl (fun b x => if natDist x.1 i < natDist b.1 i then x else b)
            (if natDist c.1 i < natDist best.1 i then c else best)).1 i ≤
            natDist (if natDist c.1 i < natDist best.1 i then c else best).1 i :=
          hmin _ (List.mem_cons_self _ _)
        rcases List.mem_cons.mp hx with rfl | hx2
        · exact le_trans hle hb1
        · rcases List.mem_cons.mp hx2 with rfl | hx3
          · exact le_trans hle hb2
          · exact hmin x (List.mem_cons_of_mem _ hx3)

theorem nearestCandidate_spec (cands : List (Nat × Inst)) (i : Nat) (hne : cands ≠ []) :
    ∃ c, nearestCandidate cands i = some c ∧ c ∈ cands ∧
      ∀ x ∈ cands, natDist c.1 i ≤ natDist x.1 i := by
  cases cands with
  | nil => exact absurd rfl hne
  | cons first rest =>
      obtain ⟨hmem, hmin⟩ := nearestFold_spec i rest first
      exact ⟨_, rfl, hmem, hmin⟩

/-- C4 (amended): only Host updates match unkeyed children by the two-stage
rule; Fragment updates use the first stage alone.  Precisely: a Fragment
update matches an unkeyed child exactly by identity-path continuity (the
first not-yet-consumed previous child whose path equals the slot's computed
path); a Host update agrees with that stage whenever it succeeds, and when it
fails falls back to the not-yet-consumed unkeyed same-type candidates —
returning none if there are none, the last remaining candidate when the slot
is the last one, and otherwise a candidate nearest by original index to the
new index. -/
theorem unkeyed_matching_rules (prevChildren : List (Option Inst)) (keyedMap : List (String × Nat))
    (used : List Nat) (path : String) (nextChildren : List VNode) (lastIndex i : Nat)
    (childNode : VNode) (hk : childNode.key = none) :
    matchFragChild prevChildren keyedMap used path nextChildren i childNode =
      pathContinuityMatch prevChildren used
        (createChildPath path none i (some childNode.type) nextChildren) ∧
    (∀ j, pathContinuityMatch prevChildren used
          (createChildPath path none i (some childNode.type) nextChildren) = some j →
        matchHostChild prevChildren keyedMap used path nextChildren lastIndex i childNode = some j) ∧
    (pathContinuityMatch prevChildren used
        (createChildPath path none i (some childNode.type) nextChildren) = none →
      (sameTypeCandidates prevChildren used childNode.type = [] →
        matchHostChild prevChildren keyedMap used path nextChildren lastIndex i childNode = none) ∧
      (sameTypeCandidates prevChildren used childNode.type ≠ [] → i = lastIndex →
        matchHostChild prevChildren keyedMap used path nextChildren lastIndex i childNode =
          (sameTypeCandidates prevChildren used childNode.type).getLast?) ∧
      (sameTypeCandidates prevChildren used childNode.type ≠ [] → i ≠ lastIndex →
        ∃ j, matchHostChild prevChildren keyedMap used path nextChildren lastIndex i childNode =
            some j ∧
          j ∈ sameTypeCandidates prevChildren used childNode.type ∧
          ∀ j' ∈ sameTypeCandidates prevChildren used childNode.type,
            natDist j i ≤ natDist j' i)) := by
  have hcset := hostCandidates_fst_spec prevChildren used childNode.type
  refine ⟨?_, ?_, ?_⟩
  · simp only [matchFragChild, hk]
    exact findByPathMatch_spec _ _ _
  · intro j hj
    simp only [matchHostChild, hk]
    rw [findByPathMatch_spec, hj]
  · intro hnone
    refine ⟨?_, ?_, ?_⟩
    · intro hempty
      have hhc : hostCandidates prevChildren 0 used childNode.type = [] :=
        List.map_eq_nil_iff.mp (hcset.trans hempty)
      simp only [matchHostChild, hk]
      rw [findByPathMatch_spec, hnone]
      simp [hhc]
    · intro hne hlast
      simp only [matchHostChild, hk]
      rw [findByPathMatch_spec, hnone]
      cases hlist : hostCandidates prevChildren 0 used childNode.type with
      | nil => exact absurd (by rw [← hcset, hlist]; rfl) hne
      | cons hd tl =>
          simp only [List.isEmpty_cons, Bool.false_eq_true, if_false, if_pos hlast]
          rw [lastScanGo_getLast, hlist, getLast?_cons_getD]
          rw [← hcset, hlist, List.getLast?_map, getLast?_cons_getD]
          rfl
    · intro hne hilast
      simp only [matchHostChild, hk]
      rw [findByPathMatch_spec, hnone]
      cases hlist : hostCandidates prevChildren 0 used childNode.type with
      | nil => exact absurd (by rw [← hcset, hlist]; rfl) hne
      | cons hd tl =>
          obtain ⟨cbest, hcb, hcbmem, hcbmin⟩ := nearestCandidate_spec (hd :: tl) i (by simp)
          refine ⟨cbest.1, ?_, ?_, ?_⟩
          · simp only [List.isEmpty_cons, Bool.false_eq_true, if_false, if_neg hilast, hcb]
            rfl
          · rw [← hcset, hlist]
            exact List.mem_map_of_mem _ hcbmem
          · intro j' hj'
            rw [← hcset, hlist] at hj'
            obtain ⟨c', hc'mem, rfl⟩ := List.mem_map.mp hj'
            exact hcbmin c' hc'mem

/-- Witness for C4's amended rule at the counterexample input: the fragment
matcher equals pure path continuity (here: no match), and the host matcher in
the last slot picks the last remaining same-type candidate. -/
theorem unkeyed_matching_rules_witness :
    matchFragChild [some instDivPrev, some instSpanPrev] [] [] "0" [spanOnly] 0 spanOnly =
      pathContinuityMatch [some instDivPrev, some instSpanPrev] []
        (createChildPath "0" none 0 (some spanOnly.type) [spanOnly]) ∧
    matchHostChild [some instDivPrev, some instSpanPrev] [] [] "0" [spanOnly] 0 0 spanOnly =
      (sameTypeCandidates [some instDivPrev, some instSpanPrev] [] spanOnly.type).getLast? :=
  ⟨(unkeyed_matching_rules [some instDivPrev, some instSpanPrev] [] [] "0" [spanOnly]
      0 0 spanOnly rfl).1,
   ((unkeyed_matching_rules [some instDivPrev, some instSpanPrev] [] [] "0" [spanOnly]
      0 0 spanOnly rfl).2.2 (by decide)).2.1 (by decide) rfl⟩

